import Mathlib

/-!
# ClearPath Debt — verification of the amortization/simulation engine

Shallow embedding of the engine in `src/src/App.jsx`: minimum-payment
estimation, the schedule requirement resolver, the payment-plan provider,
the monthly strategy simulator and the feasibility ("reality") gate.

Modelling conventions:
* JavaScript numbers are modelled as exact rationals (`ℚ`).  The source
  rounds every money mutation to two decimals via
  `round2(n) = Math.round((n + Number.EPSILON) * 100) / 100`; the
  `Number.EPSILON` term only compensates binary floating-point
  representation error, so the exact-rational model drops it and keeps
  `Math.round(x) = ⌊x + 1/2⌋`.
* `clampNumber(v, 0)` applied to a number is the identity; applied to an
  absent (`undefined`) field it yields the fallback `0`.  Fields that can
  be absent are modelled as `Option ℚ` with `none ↦ 0`.
* JavaScript object maps keyed by debt id are modelled as association
  lists `List (String × ℚ)` in insertion order, where assignment to an
  existing key overwrites in place (`jsObjSet`).  `Object.entries`
  enumerates integer-array-index keys first in ascending numeric order,
  then the remaining keys in insertion order (`jsEntries`).
* Debt ids are modelled by `JsId`: a natural number (the wiring uses array
  indices), a string, or `NaN` (the result of coercing a non-numeric
  string with `Number()`).  `Number(s)` on the id strings that occur —
  canonical decimal strings or non-numeric strings such as `"d_k3x9…"` —
  is modelled by decimal parsing (`jsNumberOfString`).
-/

namespace ClearPath

/-- `round2` from the source: `Math.round((n + ε) * 100) / 100` on exact
rationals, with `Math.round x = ⌊x + 1/2⌋`. -/
def round2 (q : ℚ) : ℚ := (⌊q * 100 + 1/2⌋ : ℤ) / 100

/-- A quantity that is a whole number of cents (the image of `round2`). -/
def IsCent (q : ℚ) : Prop := ∃ k : ℤ, q = (k : ℚ) / 100

/-- The active-balance epsilon `0.000001` used throughout the simulator. -/
def simEps : ℚ := 1/1000000

theorem isCent_round2 (q : ℚ) : IsCent (round2 q) := ⟨_, rfl⟩

theorem isCent_zero : IsCent 0 := ⟨0, by norm_num⟩

theorem isCent_add {a b : ℚ} (ha : IsCent a) (hb : IsCent b) : IsCent (a + b) := by
  obtain ⟨m, rfl⟩ := ha; obtain ⟨n, rfl⟩ := hb
  exact ⟨m + n, by push_cast; ring⟩

theorem isCent_sub {a b : ℚ} (ha : IsCent a) (hb : IsCent b) : IsCent (a - b) := by
  obtain ⟨m, rfl⟩ := ha; obtain ⟨n, rfl⟩ := hb
  exact ⟨m - n, by push_cast; ring⟩

theorem isCent_neg {a : ℚ} (ha : IsCent a) : IsCent (-a) := by
  obtain ⟨m, rfl⟩ := ha; exact ⟨-m, by push_cast; ring⟩

theorem isCent_min {a b : ℚ} (ha : IsCent a) (hb : IsCent b) : IsCent (min a b) := by
  rcases le_total a b with h | h
  · rwa [min_eq_left h]
  · rwa [min_eq_right h]

theorem isCent_max {a b : ℚ} (ha : IsCent a) (hb : IsCent b) : IsCent (max a b) := by
  rcases le_total a b with h | h
  · rwa [max_eq_right h]
  · rwa [max_eq_left h]

/-- `round2` is the identity on whole-cent quantities. -/
theorem round2_eq_self {q : ℚ} (h : IsCent q) : round2 q = q := by
  obtain ⟨k, rfl⟩ := h
  unfold round2
  have h100 : ((k : ℚ) / 100) * 100 = (k : ℚ) := by field_simp
  rw [h100]
  have : ⌊(k : ℚ) + 1/2⌋ = k := by
    rw [Int.floor_eq_iff]
    constructor
    · linarith
    · linarith
  rw [this]

theorem round2_nonneg {q : ℚ} (h : 0 ≤ q) : 0 ≤ round2 q := by
  unfold round2
  have : (0 : ℤ) ≤ ⌊q * 100 + 1/2⌋ := by
    apply Int.floor_nonneg.mpr
    linarith
  positivity

theorem round2_mono {a b : ℚ} (h : a ≤ b) : round2 a ≤ round2 b := by
  unfold round2
  have : ⌊a * 100 + 1/2⌋ ≤ ⌊b * 100 + 1/2⌋ := by
    apply Int.floor_le_floor
    linarith
  have h100 : (0:ℚ) < 100 := by norm_num
  rw [div_le_div_iff₀ h100 h100]
  exact_mod_cast by nlinarith [this]

/-! ## JavaScript id values and their string coercions -/

/-- A debt id as the simulator sees it: a number (the app wiring uses array
indices), a raw string, or `NaN` (the value `Number()` yields on a
non-numeric string). -/
inductive JsId where
  | num : ℕ → JsId
  | str : String → JsId
  | nan : JsId
deriving DecidableEq, Repr

/-- The decimal digit character for `d < 10`. -/
def digitChar (d : ℕ) : Char := Char.ofNat (48 + d)

/-- Canonical decimal printing of a natural number (`String(n)` in JS). -/
def natToDecimal (n : ℕ) : String :=
  if n = 0 then "0" else ⟨(Nat.digits 10 n).reverse.map digitChar⟩

/-- Parse a string of decimal digits; `none` when the string is empty or
contains a non-digit (models `Number(s)` being `NaN` on the id strings the
app produces). -/
def parseDecimal? (s : String) : Option ℕ :=
  let cs := s.data
  if cs = [] then none
  else if cs.all Char.isDigit then
    some (Nat.ofDigits 10 ((cs.map fun c => c.toNat - 48).reverse))
  else none

/-- JS string coercion of an id (`String(id)`; `NaN` prints as `"NaN"`). -/
def jsIdToString : JsId → String
  | .num n => natToDecimal n
  | .str s => s
  | .nan => "NaN"

/-- `Number(s)` on an id string: a canonical decimal string parses back to
the number, everything else is `NaN`. -/
def jsNumberOfString (s : String) : JsId :=
  match parseDecimal? s with
  | some n => .num n
  | none => .nan

/-- JS strict equality `===` on id values: `NaN` is equal to nothing
(itself included) and numbers never equal strings. -/
def jsEq : JsId → JsId → Bool
  | .num a, .num b => a == b
  | .str a, .str b => a == b
  | _, _ => false

theorem digitChar_isDigit {d : ℕ} (h : d < 10) : (digitChar d).isDigit = true := by
  interval_cases d <;> decide

theorem digitChar_toNat {d : ℕ} (h : d < 10) : (digitChar d).toNat - 48 = d := by
  interval_cases d <;> decide

/-- Printing then parsing a natural number gives it back. -/
theorem parseDecimal_natToDecimal (n : ℕ) : parseDecimal? (natToDecimal n) = some n := by
  by_cases h0 : n = 0
  · subst h0; decide
  · have hdig : ∀ d ∈ Nat.digits 10 n, d < 10 := fun d hd =>
      Nat.digits_lt_base (by norm_num) hd
    have hne : Nat.digits 10 n ≠ [] := Nat.digits_ne_nil_iff_ne_zero.mpr h0
    unfold natToDecimal parseDecimal?
    simp only [h0, if_false]
    have hnil : (Nat.digits 10 n).reverse.map digitChar ≠ [] := by
      simp [hne]
    rw [if_neg hnil]
    have hall : ((Nat.digits 10 n).reverse.map digitChar).all Char.isDigit = true := by
      rw [List.all_eq_true]
      intro c hc
      obtain ⟨d, hd, rfl⟩ := List.mem_map.mp hc
      exact digitChar_isDigit (hdig d (List.mem_reverse.mp hd))
    rw [if_pos hall]
    congr 1
    have hmap : (((Nat.digits 10 n).reverse.map digitChar).map fun c => c.toNat - 48).reverse
        = Nat.digits 10 n := by
      rw [List.map_map]
      have : ((Nat.digits 10 n).reverse.map fun d => (digitChar d).toNat - 48)
          = (Nat.digits 10 n).reverse := by
        conv_rhs => rw [← List.map_id ((Nat.digits 10 n).reverse)]
        apply List.map_congr_left
        intro d hd
        exact digitChar_toNat (hdig d (List.mem_reverse.mp hd))
      rw [Function.comp_def, this, List.reverse_reverse]
    rw [hmap, Nat.ofDigits_digits]

/-- `Number(String(n)) = n` for a numeric id. -/
theorem jsNumberOfString_num (n : ℕ) :
    jsNumberOfString (jsIdToString (.num n)) = .num n := by
  unfold jsNumberOfString jsIdToString
  rw [parseDecimal_natToDecimal]

/-! ## JS object maps keyed by id strings -/

/-- A JS object used as a string-keyed map of numbers. -/
abbrev JsObj := List (String × ℚ)

/-- Lookup `obj[k]`: `none` models `undefined`. -/
def jsObjGet (o : JsObj) (k : String) : Option ℚ :=
  (o.find? fun kv => kv.1 == k).map (·.2)

/-- Lookup `obj[k] || 0` / `clampNumber(obj[k], 0)`-style reads. -/
def jsObjGetD (o : JsObj) (k : String) : ℚ := (jsObjGet o k).getD 0

/-- Assignment `obj[k] = v`: overwrites an existing key in place, appends a
fresh key at the end (JS object insertion order). -/
def jsObjSet (o : JsObj) (k : String) (v : ℚ) : JsObj :=
  match o with
  | [] => [(k, v)]
  | kv :: rest => if kv.1 = k then (k, v) :: rest else kv :: jsObjSet rest k v

/-- Is `k` the canonical string of an array index (the keys that
`Object.entries` enumerates first, in ascending numeric order)? -/
def isIndexKey (k : String) : Bool :=
  match parseDecimal? k with
  | some n => natToDecimal n = k ∧ n < 2 ^ 32 - 1
  | none => false

/-- Numeric value used to order array-index keys. -/
def indexKeyVal (kv : String × ℚ) : ℕ :=
  match parseDecimal? kv.1 with
  | some n => n
  | none => 0

/-- `Object.entries` enumeration order: array-index keys ascending, then
the remaining keys in insertion order. -/
def jsEntries (o : JsObj) : JsObj :=
  (List.insertionSort (fun a b => indexKeyVal a ≤ indexKeyVal b)
      (o.filter fun kv => isIndexKey kv.1))
    ++ o.filter fun kv => ¬ isIndexKey kv.1

theorem mem_jsEntries {o : JsObj} {kv : String × ℚ} (h : kv ∈ jsEntries o) : kv ∈ o := by
  unfold jsEntries at h
  rcases List.mem_append.mp h with h' | h'
  · exact List.mem_of_mem_filter
      ((List.perm_insertionSort (fun a b => indexKeyVal a ≤ indexKeyVal b) _).mem_iff.mp h')
  · exact List.mem_of_mem_filter h'

theorem jsEntries_eq_nil {o : JsObj} (h : o = []) : jsEntries o = [] := by
  subst h; rfl

/-! ## Minimum payment estimation (`estimateMinimumPayment` and the
dynamic variant) -/

/-- `estimateMinimumPayment` from the source, on the debt's `type`,
`balance` and `interest_rate` fields. -/
def estimateMinimumPayment (type : String) (balance interest_rate : ℚ) : ℚ :=
  let bal := max 0 balance
  let apr := max 0 interest_rate
  let r := apr / 100 / 12
  let interestOnly := bal * r
  let floor : ℚ := 25
  if type = "credit_card" then
    let pctOfBalance := (2/100) * bal
    let interestPlusPrincipal := interestOnly + (1/100) * bal
    max floor (max pctOfBalance interestPlusPrincipal)
  else if type = "loc" then
    max floor interestOnly
  else if type = "loan" then
    let principalPortion := bal / 36
    max floor (interestOnly + principalPortion)
  else
    let pct := (15/1000) * bal
    max floor (max (interestOnly + (5/1000) * bal) pct)

/-- `computeMonthlyMinimumDynamic` from the source: the same estimator on
the current balance, with the override applied as a floor when enabled. -/
def computeMonthlyMinimumDynamic (type : String) (interest_rate : ℚ)
    (min_floor_enabled : Bool) (min_floor : ℚ) (currentBalance : ℚ) : ℚ :=
  let est := estimateMinimumPayment type currentBalance interest_rate
  if min_floor_enabled then max est min_floor else est

/-! ## Debts and the `debtsWithMin` annotation -/

/-- A raw debt record as held in the app's `debts` state. -/
structure Debt where
  id : JsId
  name : String
  type : String
  balance : ℚ
  interest_rate : ℚ
  min_override_enabled : Bool
  min_override_amount : ℚ
deriving DecidableEq, Repr

/-- A debt annotated by `debtsWithMin`. -/
structure AnnotatedDebt extends Debt where
  estimated_minimum_payment : ℚ
  minimum_payment : ℚ
deriving DecidableEq, Repr

/-- One debt of `debtsWithMin` (source lines 545-553): the chosen minimum
is the override amount itself when the override is enabled, else the
estimate. -/
def annotateWithMin (d : Debt) : AnnotatedDebt :=
  let est := estimateMinimumPayment d.type d.balance d.interest_rate
  let overrideEnabled := d.min_override_enabled
  let overrideAmount := max 0 d.min_override_amount
  let chosenMin := if overrideEnabled then overrideAmount else est
  { d with estimated_minimum_payment := est, minimum_payment := chosenMin }

def debtsWithMin (debts : List Debt) : List AnnotatedDebt :=
  debts.map annotateWithMin

/-! ## Schedule requirement resolver -/

/-- The fields of a debt that `computeScheduleMonthRequiredPayments`
reads: `id`, `balance` and `minimum_payment`.  The `minimum_payment`
field is `none` when absent from the record (the app passes
`activeDebts`, which omits it, so the resolver then reads `undefined` and
clamps it to `0`). -/
structure ResolverDebt where
  id : JsId
  balance : ℚ
  minimum_payment : Option ℚ
deriving DecidableEq, Repr

def AnnotatedDebt.toResolverDebt (d : AnnotatedDebt) : ResolverDebt :=
  { id := d.id, balance := d.balance, minimum_payment := some d.minimum_payment }

/-- A schedule row: month key, funding amount, per-debt allocations keyed
by the debt id's string form. -/
structure ScheduleRow where
  month : ℚ
  amount : ℚ
  allocations : JsObj
deriving DecidableEq, Repr

/-- Output of `computeScheduleMonthRequiredPayments`. -/
structure RequiredPayments where
  requiredByDebtId : JsObj
  requiredSum : ℚ
  overBudget : Bool
  unassigned : ℚ
deriving DecidableEq, Repr

/-- The required payment the resolver computes for one positive-balance
debt: `round2(max(clamped minimum, clamped allocation))` (the `min` and
`user` locals of the source loop). -/
def resolverRequired (alloc : JsObj) (d : ResolverDebt) : ℚ :=
  round2 (max (max 0 (d.minimum_payment.getD 0))
    (max 0 (jsObjGetD alloc (jsIdToString d.id))))

/-- The per-debt accumulation loop of the resolver, in list order:
carries the map built so far and the rounded running sum. -/
def resolverLoop (alloc : JsObj) : List ResolverDebt → JsObj → ℚ → JsObj × ℚ
  | [], acc, sum => (acc, sum)
  | d :: rest, acc, sum =>
    let bal := max 0 d.balance
    if bal ≤ 0 then resolverLoop alloc rest acc sum
    else
      let required := resolverRequired alloc d
      resolverLoop alloc rest (jsObjSet acc (jsIdToString d.id) required)
        (round2 (sum + required))

/-- `computeScheduleMonthRequiredPayments` from the source. -/
def computeScheduleMonthRequiredPayments (debts : List ResolverDebt)
    (row : ScheduleRow) (monthlyPayment : ℚ) : RequiredPayments :=
  let mPay := max 0 (round2 monthlyPayment)
  let alloc := row.allocations
  let r := resolverLoop alloc debts [] 0
  { requiredByDebtId := r.1
    requiredSum := r.2
    overBudget := r.2 - mPay > 1/1000000
    unassigned := round2 (max 0 (mPay - r.2)) }

/-! ## Payment plan provider -/

/-- `PlanForMonth`: what `paymentPlanFn(month)` returns. -/
structure Plan where
  monthlyPayment : ℚ
  requiredByDebtId : Option JsObj
  requiredSum : Option ℚ
  overBudget : Bool
  unassigned : Option ℚ
deriving DecidableEq, Repr

/-- Normalized schedule rows with an integer month key, as built by the
`map.set` loop of `getPaymentPlanFn`. -/
structure NormRow where
  month : ℕ
  amount : ℚ
  allocations : JsObj
deriving DecidableEq, Repr

def normalizeRow (row : ScheduleRow) : NormRow :=
  { month := max 1 ⌊row.month⌋.toNat
    amount := max 0 (round2 row.amount)
    allocations := row.allocations }

/-- `map.get(m)` on the normalized rows: later `set`s win. -/
def rowsGet (rows : List NormRow) (m : ℕ) : Option NormRow :=
  (rows.reverse.find? fun r => r.month == m)

/-- The largest month key (`Math.max(0, ...keys)`), `0` when there are no
rows. -/
def rowsMaxMonth (rows : List NormRow) : ℕ :=
  rows.foldl (fun acc r => max acc r.month) 0

/-- `getPaymentPlanFn` from the source: fixed mode returns a constant
plan; schedule mode resolves the row for the month (the row with the
greatest month key standing in for months beyond it) against the supplied
debt list. -/
def getPaymentPlanFn (paymentMode : String) (monthlyPayment : ℚ)
    (scheduleRows : List ScheduleRow) (debtsWithMinArg : List ResolverDebt) :
    ℕ → Plan :=
  let fixed := max 0 (round2 monthlyPayment)
  if paymentMode ≠ "schedule" then
    fun _ =>
      { monthlyPayment := fixed
        requiredByDebtId := none
        requiredSum := none
        overBudget := false
        unassigned := none }
  else
    let rows := scheduleRows.map normalizeRow
    let maxMonth := rowsMaxMonth rows
    let lastRow :=
      if maxMonth ≠ 0 then (rowsGet rows maxMonth).getD
          { month := 1, amount := fixed, allocations := [] }
        else { month := 1, amount := fixed, allocations := [] }
    fun month =>
      let row := (rowsGet rows month).getD lastRow
      let info := computeScheduleMonthRequiredPayments debtsWithMinArg
        { month := (row.month : ℚ), amount := row.amount, allocations := row.allocations }
        row.amount
      { monthlyPayment := row.amount
        requiredByDebtId := some info.requiredByDebtId
        requiredSum := some info.requiredSum
        overBudget := info.overBudget
        unassigned := some info.unassigned }

/-! ## Strategy simulator -/

/-- One element of the `activeDebts` array fed to `simulateStrategy`
(source lines 555-567): note it carries no `minimum_payment` field. -/
structure ActiveDebt where
  id : JsId
  name : String
  type : String
  balance : ℚ
  interest_rate : ℚ
  min_floor_enabled : Bool
  min_floor : ℚ
deriving DecidableEq, Repr

/-- Per-debt mutable state of one simulation run (source lines 190-203). -/
structure SimDebt where
  id : JsId
  name : String
  type : String
  apr : ℚ
  r : ℚ
  balance : ℚ
  interestPaid : ℚ
  payoffMonth : Option ℕ
  min_floor_enabled : Bool
  min_floor : ℚ
deriving DecidableEq, Repr

def initSimDebt (d : ActiveDebt) : SimDebt :=
  { id := d.id
    name := d.name
    type := d.type
    apr := max 0 d.interest_rate
    r := max 0 d.interest_rate / 100 / 12
    balance := round2 (max 0 d.balance)
    interestPaid := 0
    payoffMonth := none
    min_floor_enabled := d.min_floor_enabled
    min_floor := round2 (max 0 d.min_floor) }

def initState (debts : List ActiveDebt) : List SimDebt := debts.map initSimDebt

/-- `allPaid()`: every balance at most the `0.000001` epsilon. -/
def allPaidB (state : List SimDebt) : Bool :=
  state.all fun d => d.balance ≤ simEps

/-- Is `a` strictly earlier than `b` in the snowball order (ascending
balance, ties by descending APR)? -/
def snowballLt (a b : SimDebt) : Prop :=
  a.balance < b.balance ∨ (a.balance = b.balance ∧ b.apr < a.apr)

/-- Is `a` strictly earlier than `b` in the avalanche order (descending
APR, ties by ascending balance)? -/
def avalancheLt (a b : SimDebt) : Prop :=
  b.apr < a.apr ∨ (a.apr = b.apr ∧ a.balance < b.balance)

instance : DecidablePred fun ab : SimDebt × SimDebt => snowballLt ab.1 ab.2 := by
  intro ab; unfold snowballLt; infer_instance

instance (a b : SimDebt) : Decidable (snowballLt a b) := by
  unfold snowballLt; infer_instance

instance (a b : SimDebt) : Decidable (avalancheLt a b) := by
  unfold avalancheLt; infer_instance

/-- The head of the stable sort of the active debts: the first debt that
no other active debt strictly precedes in the strategy's order. -/
def pickBest (lt : SimDebt → SimDebt → Prop) [∀ a b, Decidable (lt a b)]
    (l : List SimDebt) : Option SimDebt :=
  l.foldl (fun best d =>
    match best with
    | none => some d
    | some b => if lt d b then some d else best) none

/-- `pickTargetId()` from the source: among debts with balance above the
epsilon, the first element of the strategy-sorted order (JS `sort` is
stable, so ties beyond the comparator keep state order). -/
def pickTargetId (strategy : String) (state : List SimDebt) : Option JsId :=
  let active := state.filter fun d => simEps < d.balance
  if strategy = "snowball" then (pickBest snowballLt active).map (·.id)
  else (pickBest avalancheLt active).map (·.id)

/-- Interest accrual (step 1 of the month loop): returns the updated
debts in order and the rounded running interest total. -/
def accrue : List SimDebt → ℚ → List SimDebt × ℚ
  | [], total => ([], total)
  | d :: rest, total =>
    if d.balance ≤ simEps then
      let r := accrue rest total
      (d :: r.1, r.2)
    else
      let interest := round2 (d.balance * d.r)
      let d' := { d with
        balance := round2 (d.balance + interest)
        interestPaid := round2 (d.interestPaid + interest) }
      let r := accrue rest (round2 (total + interest))
      (d' :: r.1, r.2)

/-- Step 2: the dynamic minimums map for this month, keyed by id string. -/
def dynamicMins : List SimDebt → JsObj → JsObj
  | [], acc => acc
  | d :: rest, acc =>
    if d.balance ≤ simEps then dynamicMins rest acc
    else
      dynamicMins rest (jsObjSet acc (jsIdToString d.id)
        (round2 (computeMonthlyMinimumDynamic d.type d.apr
          d.min_floor_enabled d.min_floor d.balance)))

/-- The *intended* payment of one debt in the required loop:
`max(clamped schedule allocation, dynamic minimum)` in schedule mode
(`requiredByDebtId` present), the dynamic minimum alone in fixed mode. -/
def intendedPayment (planReq : Option JsObj) (dynamicMin : ℚ) (d : SimDebt) : ℚ :=
  match planReq with
  | some req => max (max 0 (jsObjGetD req (jsIdToString d.id))) dynamicMin
  | none => dynamicMin

/-- Accumulator of the required-disbursement loop (step 3). -/
structure ReqAcc where
  remaining : ℚ
  requiredSum : ℚ
  minPaid : ℚ
  directedPaid : ℚ
  paid : JsObj
deriving Repr

/-- One active debt's slice of the required-disbursement loop: record the
intended amount in the running required sum, pay
`min(intended, balance, remaining)` if positive, update the paid map and
the payoff month. -/
def requiredStep (mins : JsObj) (planReq : Option JsObj) (month : ℕ)
    (d : SimDebt) (acc : ReqAcc) : SimDebt × ReqAcc :=
  let dynamicMin := jsObjGetD mins (jsIdToString d.id)
  let intended := intendedPayment planReq dynamicMin d
  let acc1 := { acc with requiredSum := round2 (acc.requiredSum + intended) }
  let pay := round2 (min intended (min d.balance acc1.remaining))
  if 0 < pay then
    let newBal := round2 (d.balance - pay)
    let d' := { d with
      balance := newBal
      payoffMonth :=
        if newBal ≤ simEps ∧ d.payoffMonth = none then some month else d.payoffMonth }
    let acc2 : ReqAcc :=
      { remaining := round2 (acc1.remaining - pay)
        requiredSum := acc1.requiredSum
        minPaid := round2 (acc1.minPaid + min dynamicMin pay)
        directedPaid :=
          if planReq.isSome then round2 (acc1.directedPaid + pay) else acc1.directedPaid
        paid := jsObjSet acc1.paid (jsIdToString d.id)
          (round2 (jsObjGetD acc1.paid (jsIdToString d.id) + pay)) }
    (d', acc2)
  else
    (d, acc1)

/-- Step 3: pay the required amounts (schedule allocations with minimums
enforced, or plain dynamic minimums in fixed mode) debt by debt. -/
def requiredPhase (mins : JsObj) (planReq : Option JsObj) (month : ℕ) :
    List SimDebt → ReqAcc → List SimDebt × ReqAcc
  | [], acc => ([], acc)
  | d :: rest, acc =>
    if d.balance ≤ simEps then
      let r := requiredPhase mins planReq month rest acc
      (d :: r.1, r.2)
    else
      let s := requiredStep mins planReq month d acc
      let r := requiredPhase mins planReq month rest s.2
      (s.1 :: r.1, r.2)

/-- Replace the first debt whose id is `===` to `tid`. -/
def payFirstMatch (tid : JsId) (f : SimDebt → SimDebt) : List SimDebt → List SimDebt
  | [] => []
  | d :: rest => if jsEq d.id tid then f d :: rest else d :: payFirstMatch tid f rest

/-- Accumulator of the extra-targeting loop (step 4). -/
structure ExtraAcc where
  remaining : ℚ
  extraPaid : ℚ
  extraBy : JsObj
  paid : JsObj
deriving Repr

/-- Step 4: while funding remains and a debt is unpaid, pick the
strategy's target and pay `min(balance, remaining)` toward it.  The JS
`while` loop is modelled with fuel: each productive iteration either
retires a debt or exhausts the remaining funding, so on the whole-cent
states the simulator produces, `state.length + 1` iterations always
suffice. -/
def extraLoop (strategy : String) (month : ℕ) :
    ℕ → List SimDebt → ExtraAcc → List SimDebt × ExtraAcc
  | 0, state, acc => (state, acc)
  | fuel + 1, state, acc =>
    if simEps < acc.remaining ∧ allPaidB state = false then
      match pickTargetId strategy state with
      | none => (state, acc)
      | some tid =>
        match state.find? fun x => jsEq x.id tid with
        | none => (state, acc)
        | some t =>
          if t.balance ≤ simEps then (state, acc)
          else
            let pay := round2 (min t.balance acc.remaining)
            if pay ≤ 0 then (state, acc)
            else
              let state' := payFirstMatch tid (fun d =>
                { d with
                  balance := round2 (d.balance - pay)
                  payoffMonth :=
                    if round2 (d.balance - pay) ≤ simEps ∧ d.payoffMonth = none
                    then some month else d.payoffMonth }) state
              let acc' : ExtraAcc :=
                { remaining := round2 (acc.remaining - pay)
                  extraPaid := round2 (acc.extraPaid + pay)
                  extraBy := jsObjSet acc.extraBy (jsIdToString tid)
                    (round2 (jsObjGetD acc.extraBy (jsIdToString tid) + pay))
                  paid := jsObjSet acc.paid (jsIdToString tid)
                    (round2 (jsObjGetD acc.paid (jsIdToString tid) + pay)) }
              extraLoop strategy month fuel state' acc'
    else (state, acc)

/-- The fold that determines the month's reported target: the first entry
(in `Object.entries` order) whose amount strictly exceeds all earlier
ones, its key coerced with `Number()`. -/
def computeActualTarget (paid : JsObj) : Option JsId × ℚ :=
  (jsEntries paid).foldl (fun acc kv =>
    if acc.2 < kv.2 then (some (jsNumberOfString kv.1), kv.2) else acc) (none, 0)

/-- The string JS uses to index an object with `actualTargetId`
(`null` indexes as `"null"`). -/
def keyOfOptId : Option JsId → String
  | none => "null"
  | some id => jsIdToString id

/-- One row of the output timeline. -/
structure TimelineEntry where
  month : ℕ
  paymentThisMonth : ℚ
  requiredSum : ℚ
  unassigned : ℚ
  interestThisMonth : ℚ
  totalInterestToDate : ℚ
  minPaid : ℚ
  directedPaid : ℚ
  extraPaid : ℚ
  totalRemaining : ℚ
  targetDebtId : Option JsId
  targetDebtName : Option String
  appliedToTargetThisMonth : ℚ
  extraAppliedToTarget : ℚ
  extraByDebtId : JsObj
  invalid : Bool
deriving Repr

def totalRemainingOf (state : List SimDebt) : ℚ :=
  round2 (state.foldl (fun sum d => sum + max 0 d.balance) 0)

/-- The terminal entry pushed when the month's plan is over budget
(source lines 232-251). -/
def overBudgetEntry (month : ℕ) (plan : Plan) (paymentThisMonth : ℚ)
    (state : List SimDebt) (totalInterest : ℚ) : TimelineEntry :=
  { month := month
    paymentThisMonth := paymentThisMonth
    requiredSum := round2 (plan.requiredSum.getD 0)
    unassigned := round2 (plan.unassigned.getD 0)
    interestThisMonth := 0
    totalInterestToDate := totalInterest
    minPaid := 0
    directedPaid := 0
    extraPaid := 0
    totalRemaining := totalRemainingOf state
    targetDebtId := none
    targetDebtName := none
    appliedToTargetThisMonth := 0
    extraAppliedToTarget := 0
    extraByDebtId := []
    invalid := true }

/-- Result of one iteration of the month loop: the updated state, the
updated cumulative interest, the entry pushed, whether the run halts
(over-budget), and — as a ghost output for the statements below — the
`paidThisMonthByDebtId` map the source computes internally. -/
def monthBody (strategy : String) (plan : Plan) (month : ℕ)
    (state : List SimDebt) (totalInterest : ℚ) :
    List SimDebt × ℚ × TimelineEntry × Bool × JsObj :=
  let paymentThisMonth := max 0 (round2 plan.monthlyPayment)
  if plan.overBudget then
    (state, totalInterest,
      overBudgetEntry month plan paymentThisMonth state totalInterest, true, [])
  else
    let acr := accrue state 0
    let state1 := acr.1
    let interestThisMonthTotal := acr.2
    let totalInterest' := round2 (totalInterest + interestThisMonthTotal)
    let mins := dynamicMins state1 []
    let req := requiredPhase mins plan.requiredByDebtId month state1
      { remaining := round2 paymentThisMonth
        requiredSum := 0
        minPaid := 0
        directedPaid := 0
        paid := [] }
    let state2 := req.1
    let reqAcc := req.2
    let unassignedThisMonth := round2 (max 0 (paymentThisMonth - reqAcc.requiredSum))
    let ext := extraLoop strategy month (state2.length + 1) state2
      { remaining := reqAcc.remaining
        extraPaid := 0
        extraBy := []
        paid := reqAcc.paid }
    let state3 := ext.1
    let extraAcc := ext.2
    let tgt := computeActualTarget extraAcc.paid
    let actualTargetId := tgt.1
    let actualTargetPaid := tgt.2
    let actualTargetDebt : Option SimDebt :=
      match actualTargetId with
      | some tid => state3.find? fun (x : SimDebt) => jsEq x.id tid
      | none => none
    let entry : TimelineEntry :=
      { month := month
        paymentThisMonth := paymentThisMonth
        requiredSum := reqAcc.requiredSum
        unassigned := unassignedThisMonth
        interestThisMonth := interestThisMonthTotal
        totalInterestToDate := totalInterest'
        minPaid := reqAcc.minPaid
        directedPaid := reqAcc.directedPaid
        extraPaid := extraAcc.extraPaid
        totalRemaining := totalRemainingOf state3
        targetDebtId := actualTargetId
        targetDebtName := actualTargetDebt.map (fun (d : SimDebt) => d.name)
        appliedToTargetThisMonth := round2 actualTargetPaid
        extraAppliedToTarget := round2 (jsObjGetD extraAcc.extraBy (keyOfOptId actualTargetId))
        extraByDebtId := extraAcc.extraBy
        invalid := false }
    (state3, totalInterest', entry, false, extraAcc.paid)

/-- Step 1 of a month as a value: the accrued state and interest total. -/
def monthAccrued (st : List SimDebt) : List SimDebt × ℚ := accrue st 0

/-- Steps 2-3 of a month as a value: the required-disbursement result
(`state2` and `reqAcc` of the source). -/
def monthRequired (plan : Plan) (month : ℕ) (st : List SimDebt) :
    List SimDebt × ReqAcc :=
  requiredPhase (dynamicMins (monthAccrued st).1 []) plan.requiredByDebtId month
    (monthAccrued st).1
    { remaining := round2 (max 0 (round2 plan.monthlyPayment)), requiredSum := 0,
      minPaid := 0, directedPaid := 0, paid := [] }

/-- Step 4 of a month as a value: the extra-targeting result (`state3`
and `extraAcc` of the source). -/
def monthExtra (strategy : String) (plan : Plan) (month : ℕ) (st : List SimDebt) :
    List SimDebt × ExtraAcc :=
  extraLoop strategy month ((monthRequired plan month st).1.length + 1)
    (monthRequired plan month st).1
    { remaining := (monthRequired plan month st).2.remaining, extraPaid := 0,
      extraBy := [], paid := (monthRequired plan month st).2.paid }

/-- The month loop (`for (let month = 1; month <= 600; month++)`),
with `fuel` months left to run. -/
def simLoop (strategy : String) (planFn : ℕ → Plan) :
    ℕ → ℕ → List SimDebt → ℚ → List TimelineEntry →
    List SimDebt × ℚ × List TimelineEntry
  | 0, _, state, totalInterest, acc => (state, totalInterest, acc.reverse)
  | fuel + 1, month, state, totalInterest, acc =>
    if allPaidB state then (state, totalInterest, acc.reverse)
    else
      let r := monthBody strategy (planFn month) month state totalInterest
      let state' := r.1
      let totalInterest' := r.2.1
      let entry := r.2.2.1
      let halt := r.2.2.2.1
      if halt then (state', totalInterest', (entry :: acc).reverse)
      else simLoop strategy planFn fuel (month + 1) state' totalInterest' (entry :: acc)

def MAX_MONTHS : ℕ := 600

structure PerDebtResult where
  id : JsId
  name : String
  apr : ℚ
  payoffMonth : ℕ
  interestPaid : ℚ
deriving DecidableEq, Repr

structure SimResult where
  strategy : String
  monthsToDebtFree : ℕ
  totalInterest : ℚ
  timeline : List TimelineEntry
  perDebt : List PerDebtResult
deriving Repr

/-- `simulateStrategy` from the source. -/
def simulateStrategy (strategy : String) (debts : List ActiveDebt)
    (planFn : ℕ → Plan) : SimResult :=
  let r := simLoop strategy planFn MAX_MONTHS 1 (initState debts) 0 []
  let finalState := r.1
  let totalInterest := r.2.1
  let timeline := r.2.2
  let monthsToDebtFree := if allPaidB finalState then timeline.length else MAX_MONTHS
  { strategy := strategy
    monthsToDebtFree := monthsToDebtFree
    totalInterest := totalInterest
    timeline := timeline
    perDebt := finalState.map fun d =>
      { id := d.id
        name := d.name
        apr := d.apr
        payoffMonth := d.payoffMonth.getD monthsToDebtFree
        interestPaid := d.interestPaid } }

/-- The final per-debt state of a run (the `state` array after the month
loop), for stating payoff facts the result record does not carry. -/
def simFinalState (strategy : String) (debts : List ActiveDebt)
    (planFn : ℕ → Plan) : List SimDebt :=
  (simLoop strategy planFn MAX_MONTHS 1 (initState debts) 0 []).1

/-! ## App wiring: `activeDebts`, `minimumsTotal`, the reality gate -/

/-- The `activeDebts` array (source lines 555-567): `debtsWithMin`
re-keyed by array index, blank names defaulted, balances clamped, the
override re-exposed as a floor, restricted to positive balances. -/
def activeDebtsOf (debts : List Debt) : List ActiveDebt :=
  (((debtsWithMin debts).enum.map fun (p : ℕ × AnnotatedDebt) =>
    { id := JsId.num p.1
      name := if p.2.name.trim = "" then "Debt" else p.2.name.trim
      type := if p.2.type = "" then "other" else p.2.type
      balance := max 0 p.2.balance
      interest_rate := max 0 p.2.interest_rate
      min_floor_enabled := p.2.min_override_enabled
      min_floor := max 0 p.2.min_override_amount } : List ActiveDebt)).filter
    fun d => 0 < d.balance

/-- The resolver's view of an `activeDebts` element: its
`minimum_payment` field is absent. -/
def ActiveDebt.toResolverDebt (d : ActiveDebt) : ResolverDebt :=
  { id := d.id, balance := d.balance, minimum_payment := none }

/-- The `paymentPlanFn` the app builds (source line 576-579):
`getPaymentPlanFn` over the active debts. -/
def appPaymentPlanFn (paymentMode : String) (monthlyPayment : ℚ)
    (rows : List ScheduleRow) (debts : List Debt) : ℕ → Plan :=
  getPaymentPlanFn paymentMode (max 0 monthlyPayment) rows
    ((activeDebtsOf debts).map ActiveDebt.toResolverDebt)

/-- `minimumsTotal` (source lines 519-542).  It iterates the *raw* debts,
which carry `min_override_*` fields but no `min_floor_*` fields, so the
`min_floor_enabled`/`min_floor` reads are `undefined` and the dynamic
minimum is computed with the floor disabled. -/
def minimumsTotal (debts : List Debt) : ℚ :=
  round2 (debts.foldl (fun sum d =>
    let bal := max 0 d.balance
    if bal ≤ 0 then sum
    else sum + computeMonthlyMinimumDynamic d.type (max 0 d.interest_rate) false 0 bal) 0)

/-- Output of the reality gate. -/
structure Reality where
  state : String
  isAtRisk : Bool
  hasDebts : Bool
  cannotCoverBills : Bool
  cannotCoverMinimums : Bool
  scheduleInvalid : Bool
  month1BelowMins : Bool
  freeCash : ℚ
  minimumsTotal : ℚ
  shortfallBills : ℚ
  shortfallMinimums : ℚ
  shortfallMonth1 : ℚ
  minIncomeNeeded : ℚ
  minDebtPaymentNeeded : ℚ
deriving DecidableEq, Repr

/-- The `reality` feasibility gate (source lines 597-656), as a function
of income, bills, the raw debts, the funding mode and the resolved
month-1 plan. -/
def reality (income expenses : ℚ) (debts : List Debt) (paymentMode : String)
    (firstMonthPlan : Plan) : Reality :=
  let freeCash := income - expenses
  let minsTotal := minimumsTotal debts
  let hasDebts := (activeDebtsOf debts).length > 0
  let firstMonthPayment := max 0 (round2 firstMonthPlan.monthlyPayment)
  let firstMonthOverBudget := firstMonthPlan.overBudget
  let incomeMissing := income ≤ 0
  let cannotCoverBills := income < expenses
  let cannotCoverMinimums := if hasDebts then freeCash < minsTotal else False
  let scheduleInvalid := if paymentMode = "schedule" then firstMonthOverBudget = true else False
  let month1BelowMins := if hasDebts then firstMonthPayment < minsTotal else False
  let isAtRisk := incomeMissing ∨ cannotCoverBills ∨ cannotCoverMinimums ∨
    scheduleInvalid ∨ month1BelowMins
  let shortfallBills := max 0 (expenses - income)
  let shortfallMinimums := if hasDebts then max 0 (minsTotal - freeCash) else 0
  let shortfallMonth1 := if hasDebts then max 0 (minsTotal - firstMonthPayment) else 0
  let minIncomeNeeded := if hasDebts then expenses + minsTotal else expenses
  let minDebtPaymentNeeded := minsTotal
  let state :=
    if isAtRisk then "at_risk"
    else
      let bufferAfterMins := freeCash - minsTotal
      if 1500 < bufferAfterMins ∧ 2000 < freeCash then "optimizing"
      else if bufferAfterMins < 200 then "tight"
      else "stable"
  { state := state
    isAtRisk := decide isAtRisk
    hasDebts := decide hasDebts
    cannotCoverBills := decide cannotCoverBills
    cannotCoverMinimums := decide cannotCoverMinimums
    scheduleInvalid := decide scheduleInvalid
    month1BelowMins := decide month1BelowMins
    freeCash := freeCash
    minimumsTotal := minsTotal
    shortfallBills := shortfallBills
    shortfallMinimums := shortfallMinimums
    shortfallMonth1 := shortfallMonth1
    minIncomeNeeded := minIncomeNeeded
    minDebtPaymentNeeded := minDebtPaymentNeeded }

/-! ## Run points, invariants and statement vocabulary -/

/-- A point of one strategy run: the month about to be simulated, the
debt state entering it, the cumulative interest, and whether the loop is
still live (not halted, not past the cap, not fully paid). -/
structure RunPoint where
  month : ℕ
  state : List SimDebt
  totalInterest : ℚ
  running : Bool
deriving Repr

/-- The successive states of a strategy run: `simStateAt … n` is the
point entering month `n+1`, stepping through exactly the `monthBody`
calls the loop in `simulateStrategy` performs. -/
def simStateAt (strategy : String) (debts : List ActiveDebt) (planFn : ℕ → Plan) :
    ℕ → RunPoint
  | 0 => { month := 1, state := initState debts, totalInterest := 0, running := true }
  | n + 1 =>
    let s := simStateAt strategy debts planFn n
    if s.running = false ∨ MAX_MONTHS < s.month ∨ allPaidB s.state then
      { s with running := false }
    else
      let r := monthBody strategy (planFn s.month) s.month s.state s.totalInterest
      { month := s.month + 1, state := r.1, totalInterest := r.2.1,
        running := !r.2.2.2.1 }

/-- The numeric state invariant of a run: balances are non-negative
whole cents, cumulative interest is whole cents, monthly rates are
non-negative. -/
def SimInv (st : List SimDebt) : Prop :=
  ∀ d ∈ st, 0 ≤ d.balance ∧ IsCent d.balance ∧ IsCent d.interestPaid ∧ 0 ≤ d.r

/-- The JS object key of a debt's id. -/
def keyOf (d : SimDebt) : String := jsIdToString d.id

/-- A default debt, used only as the out-of-range fallback of `List.getD`
in statements. -/
def dummyDebt : SimDebt :=
  { id := .nan, name := "", type := "", apr := 0, r := 0, balance := 0,
    interestPaid := 0, payoffMonth := none, min_floor_enabled := false, min_floor := 0 }

/-- `(k, v)` is the first entry of `l` attaining its maximum value: all
earlier entries are strictly smaller, all later ones no larger. -/
def FirstMax (l : JsObj) (k : String) (v : ℚ) : Prop :=
  ∃ pre post, l = pre ++ (k, v) :: post ∧
    (∀ kv ∈ pre, kv.2 < v) ∧ (∀ kv ∈ post, kv.2 ≤ v)

/-! ## Concrete example data used by counterexamples and witnesses -/

/-- A credit-card debt at 0% APR with the floor override enabled at 30,
well below its estimated minimum of 80. -/
def exOverrideDebt : Debt :=
  { id := .str "d1", name := "CC", type := "credit_card", balance := 4000,
    interest_rate := 0, min_override_enabled := true, min_override_amount := 30 }

/-- A single line-of-credit debt at 0% APR with balance 100. -/
def exSmallDebt : ActiveDebt :=
  { id := .num 0, name := "A", type := "loc", balance := 100, interest_rate := 0,
    min_floor_enabled := false, min_floor := 0 }

/-- A fixed plan paying 1000 every month. -/
def exPlanBig : ℕ → Plan := fun _ =>
  { monthlyPayment := 1000, requiredByDebtId := none, requiredSum := none,
    overBudget := false, unassigned := none }

/-- A plan flagged over budget from month 1. -/
def exPlanOver : ℕ → Plan := fun _ =>
  { monthlyPayment := 100, requiredByDebtId := some [("0", 500)], requiredSum := some 500,
    overBudget := true, unassigned := some 0 }

/-- A simulation debt with balance 50 at APR 10. -/
def exPickA : SimDebt :=
  { id := .num 0, name := "a", type := "loc", apr := 10, r := 10/1200, balance := 50,
    interestPaid := 0, payoffMonth := none, min_floor_enabled := false, min_floor := 0 }

/-- A simulation debt with balance 100 at APR 20. -/
def exPickB : SimDebt :=
  { id := .num 1, name := "b", type := "loc", apr := 20, r := 20/1200, balance := 100,
    interestPaid := 0, payoffMonth := none, min_floor_enabled := false, min_floor := 0 }

/-- A debt of 600 at 0% APR: paying 1 a month retires it exactly at
month 600. -/
def exSlowDebt : ActiveDebt :=
  { id := .num 0, name := "D", type := "other", balance := 600, interest_rate := 0,
    min_floor_enabled := false, min_floor := 0 }

/-- A fixed plan paying 1 every month. -/
def exPlanOne : ℕ → Plan := fun _ =>
  { monthlyPayment := 1, requiredByDebtId := none, requiredSum := none,
    overBudget := false, unassigned := none }

/-- The simulation state of `exSlowDebt` after some months: balance `b`,
payoff month `po`, everything else as initialized. -/
def exSlowState (b : ℚ) (po : Option ℕ) : SimDebt :=
  { id := .num 0, name := "D", type := "other", apr := 0, r := 0, balance := b,
    interestPaid := 0, payoffMonth := po, min_floor_enabled := false, min_floor := 0 }

/-- A simulation debt with a non-numeric string id. -/
def exStrDebt : SimDebt :=
  { id := .str "x", name := "S", type := "loc", apr := 10, r := 10/1200, balance := 50,
    interestPaid := 0, payoffMonth := none, min_floor_enabled := false, min_floor := 0 }

/-! ## Helper lemmas on object maps and the resolver loop -/

theorem jsObjGet_set_self (o : JsObj) (k : String) (v : ℚ) :
    jsObjGet (jsObjSet o k v) k = some v := by
  induction o with
  | nil =>
    unfold jsObjSet jsObjGet
    rw [List.find?_cons_of_pos _ (by simp)]
    rfl
  | cons kv rest ih =>
    unfold jsObjSet
    by_cases h : kv.1 = k
    · rw [if_pos h]
      unfold jsObjGet
      rw [List.find?_cons_of_pos _ (by simp)]
      rfl
    · rw [if_neg h]
      unfold jsObjGet at ih ⊢
      rw [List.find?_cons_of_neg _ (by simpa using h)]
      exact ih

theorem jsObjGet_set_ne (o : JsObj) (k k' : String) (v : ℚ) (h : k' ≠ k) :
    jsObjGet (jsObjSet o k v) k' = jsObjGet o k' := by
  induction o with
  | nil =>
    unfold jsObjSet jsObjGet
    rw [List.find?_cons_of_neg _ (by simpa using fun h' => h h'.symm)]
  | cons kv rest ih =>
    unfold jsObjSet
    by_cases hk : kv.1 = k
    · rw [if_pos hk]
      unfold jsObjGet
      rw [List.find?_cons_of_neg _ (by simpa using fun h' => h h'.symm),
        List.find?_cons_of_neg _ (by simpa [hk] using fun h' => h h'.symm)]
    · rw [if_neg hk]
      by_cases hk' : kv.1 = k'
      · unfold jsObjGet
        rw [List.find?_cons_of_pos _ (by simpa using hk'),
          List.find?_cons_of_pos _ (by simpa using hk')]
      · unfold jsObjGet at ih ⊢
        rw [List.find?_cons_of_neg _ (by simpa using hk'),
          List.find?_cons_of_neg _ (by simpa using hk')]
        exact ih

theorem jsObjGetD_set_self (o : JsObj) (k : String) (v : ℚ) :
    jsObjGetD (jsObjSet o k v) k = v := by
  unfold jsObjGetD
  rw [jsObjGet_set_self]
  rfl

theorem jsObjGetD_set_ne (o : JsObj) (k k' : String) (v : ℚ) (h : k' ≠ k) :
    jsObjGetD (jsObjSet o k v) k' = jsObjGetD o k' := by
  unfold jsObjGetD
  rw [jsObjGet_set_ne _ _ _ _ h]

theorem mem_jsObjSet {o : JsObj} {k : String} {v : ℚ} {kv : String × ℚ}
    (h : kv ∈ jsObjSet o k v) : kv = (k, v) ∨ kv ∈ o := by
  induction o with
  | nil =>
    unfold jsObjSet at h
    rcases List.mem_singleton.mp h with rfl
    exact Or.inl rfl
  | cons a rest ih =>
    unfold jsObjSet at h
    by_cases ha : a.1 = k
    · rw [if_pos ha] at h
      rcases List.mem_cons.mp h with rfl | h'
      · exact Or.inl rfl
      · exact Or.inr (List.mem_cons_of_mem a h')
    · rw [if_neg ha] at h
      rcases List.mem_cons.mp h with rfl | h'
      · exact Or.inr (List.mem_cons_self _ _)
      · rcases ih h' with h'' | h''
        · exact Or.inl h''
        · exact Or.inr (List.mem_cons_of_mem _ h'')

/-- Strict equality accepts only equal non-`NaN` ids. -/
theorem jsEq_true_iff {a b : JsId} : jsEq a b = true ↔ a = b ∧ a ≠ JsId.nan := by
  cases a <;> cases b <;> simp [jsEq]

theorem jsEq_nan_right (a : JsId) : jsEq a JsId.nan = false := by
  cases a <;> rfl

/-- Two `===`-equal ids have the same string form. -/
theorem jsIdToString_of_jsEq {a b : JsId} (h : jsEq a b = true) :
    jsIdToString a = jsIdToString b := by
  rw [(jsEq_true_iff.mp h).1]

theorem jsObjGetD_nonneg (o : JsObj) (k : String) (h : ∀ kv ∈ o, 0 ≤ kv.2) :
    0 ≤ jsObjGetD o k := by
  unfold jsObjGetD jsObjGet
  cases hf : o.find? fun kv => kv.1 == k with
  | none => simp
  | some kv => simpa using h kv (List.mem_of_find?_eq_some hf)

/-- A positive balance is exactly what the resolver's skip test lets
through. -/
theorem resolver_active_iff (b : ℚ) : ¬ max 0 b ≤ 0 ↔ 0 < b := by
  rw [max_le_iff]
  simp

theorem resolverLoop_get_notmem (alloc : JsObj) (l : List ResolverDebt)
    (acc : JsObj) (sum : ℚ) (k : String)
    (h : k ∉ l.map fun e => jsIdToString e.id) :
    jsObjGet (resolverLoop alloc l acc sum).1 k = jsObjGet acc k := by
  induction l generalizing acc sum with
  | nil => rfl
  | cons d rest ih =>
    simp only [List.map_cons, List.mem_cons] at h
    push_neg at h
    by_cases hb : max 0 d.balance ≤ 0
    · rw [resolverLoop, if_pos hb]
      exact ih _ _ h.2
    · rw [resolverLoop, if_neg hb]
      rw [ih _ _ h.2]
      exact jsObjGet_set_ne _ _ _ _ h.1

theorem resolverLoop_get (alloc : JsObj) (l : List ResolverDebt)
    (acc : JsObj) (sum : ℚ) (d : ResolverDebt) (hd : d ∈ l) (hbal : 0 < d.balance)
    (hnd : (l.map fun e => jsIdToString e.id).Nodup) :
    jsObjGet (resolverLoop alloc l acc sum).1 (jsIdToString d.id)
      = some (resolverRequired alloc d) := by
  induction l generalizing acc sum with
  | nil => cases hd
  | cons e rest ih =>
    rw [List.map_cons, List.nodup_cons] at hnd
    rcases List.mem_cons.mp hd with rfl | hmem
    · rw [resolverLoop, if_neg (resolver_active_iff d.balance |>.mpr hbal)]
      rw [resolverLoop_get_notmem _ _ _ _ _ hnd.1]
      exact jsObjGet_set_self _ _ _
    · by_cases hb : max 0 e.balance ≤ 0
      · rw [resolverLoop, if_pos hb]
        exact ih _ _ hmem hnd.2
      · rw [resolverLoop, if_neg hb]
        exact ih _ _ hmem hnd.2

theorem resolverLoop_sum (alloc : JsObj) (l : List ResolverDebt)
    (acc : JsObj) (sum : ℚ) :
    (resolverLoop alloc l acc sum).2
      = (l.filter fun d => 0 < d.balance).foldl
          (fun s d => round2 (s + resolverRequired alloc d)) sum := by
  induction l generalizing acc sum with
  | nil => rfl
  | cons d rest ih =>
    by_cases hb : max 0 d.balance ≤ 0
    · have : ¬ (0 : ℚ) < d.balance := fun h => (resolver_active_iff d.balance).mpr h hb
      rw [resolverLoop, if_pos hb, List.filter_cons_of_neg (by simpa using this)]
      exact ih _ _
    · have : (0 : ℚ) < d.balance := (resolver_active_iff d.balance).mp hb
      rw [resolverLoop, if_neg hb, List.filter_cons_of_pos (by simpa using this)]
      exact ih _ _

theorem resolverLoop_sum_cent (alloc : JsObj) (l : List ResolverDebt)
    (acc : JsObj) (sum : ℚ) (h : IsCent sum) :
    IsCent (resolverLoop alloc l acc sum).2 := by
  induction l generalizing acc sum with
  | nil => exact h
  | cons d rest ih =>
    by_cases hb : max 0 d.balance ≤ 0
    · rw [resolverLoop, if_pos hb]; exact ih _ _ h
    · rw [resolverLoop, if_neg hb]; exact ih _ _ (isCent_round2 _)

/-! ## Helper lemmas on the strategy target fold -/

theorem pickBest_step_mem (lt : SimDebt → SimDebt → Prop) [∀ a b, Decidable (lt a b)] :
    ∀ (l : List SimDebt) (ob : Option SimDebt) (d : SimDebt),
      l.foldl (fun best e =>
        match best with
        | none => some e
        | some b => if lt e b then some e else best) ob = some d →
      ob = some d ∨ d ∈ l := by
  intro l
  induction l with
  | nil => intro ob d h; exact Or.inl h
  | cons x rest ih =>
    intro ob d h
    rw [List.foldl_cons] at h
    rcases ih _ _ h with h' | h'
    · cases ob with
      | none =>
        simp only at h'
        injection h' with h''
        exact Or.inr (List.mem_cons.mpr (Or.inl h''.symm))
      | some b =>
        simp only at h'
        by_cases hlt : lt x b
        · rw [if_pos hlt] at h'
          injection h' with h''
          exact Or.inr (List.mem_cons.mpr (Or.inl h''.symm))
        · rw [if_neg hlt] at h'
          exact Or.inl h'
    · exact Or.inr (List.mem_cons_of_mem x h')

theorem pickBest_step_min (lt : SimDebt → SimDebt → Prop) [∀ a b, Decidable (lt a b)]
    (htrans : ∀ {a b c}, lt a b → lt b c → lt a c)
    (hneg : ∀ {a b c}, ¬ lt a b → ¬ lt b c → ¬ lt a c)
    (hirr : ∀ a, ¬ lt a a) :
    ∀ (l : List SimDebt) (ob : Option SimDebt) (d : SimDebt),
      l.foldl (fun best e =>
        match best with
        | none => some e
        | some b => if lt e b then some e else best) ob = some d →
      (∀ e ∈ l, ¬ lt e d) ∧ (∀ b, ob = some b → ¬ lt b d) := by
  intro l
  induction l with
  | nil =>
    intro ob d h
    refine ⟨by simp, fun b hb => ?_⟩
    rw [hb] at h
    injection h with h'
    subst h'
    exact hirr b
  | cons x rest ih =>
    intro ob d h
    rw [List.foldl_cons] at h
    have step := ih _ _ h
    constructor
    · intro e he
      rcases List.mem_cons.mp he with rfl | hmem
      · cases ob with
        | none => exact step.2 e rfl
        | some b =>
          by_cases hlt : lt e b
          · exact step.2 e (by simp only; rw [if_pos hlt])
          · have hbd : ¬ lt b d := step.2 b (by simp only; rw [if_neg hlt])
            exact hneg hlt hbd
      · exact step.1 e hmem
    · intro b hb
      subst hb
      by_cases hlt : lt x b
      · have hxd : ¬ lt x d := step.2 x (by simp only; rw [if_pos hlt])
        intro hbd
        exact hxd (htrans hlt hbd)
      · exact step.2 b (by simp only; rw [if_neg hlt])

theorem snowballLt_trans {a b c : SimDebt} (h1 : snowballLt a b) (h2 : snowballLt b c) :
    snowballLt a c := by
  unfold snowballLt at *
  rcases h1 with h1 | ⟨h1, h1'⟩ <;> rcases h2 with h2 | ⟨h2, h2'⟩
  · exact Or.inl (h1.trans h2)
  · exact Or.inl (h2 ▸ h1)
  · exact Or.inl (h1 ▸ h2)
  · exact Or.inr ⟨h1.trans h2, h2'.trans h1'⟩

theorem snowballLt_neg_trans {a b c : SimDebt} (h1 : ¬ snowballLt a b)
    (h2 : ¬ snowballLt b c) : ¬ snowballLt a c := by
  unfold snowballLt at *
  push_neg at *
  rcases h1 with ⟨h1, h1'⟩
  rcases h2 with ⟨h2, h2'⟩
  refine ⟨le_trans h2 h1, fun hac => ?_⟩
  have h3 : a.balance ≤ b.balance := by rw [hac]; exact h2
  have hab : a.balance = b.balance := le_antisymm h3 h1
  have hbc : b.balance = c.balance := by rw [← hab, hac]
  exact le_trans (h1' hab) (h2' hbc)

theorem avalancheLt_trans {a b c : SimDebt} (h1 : avalancheLt a b) (h2 : avalancheLt b c) :
    avalancheLt a c := by
  unfold avalancheLt at *
  rcases h1 with h1 | ⟨h1, h1'⟩ <;> rcases h2 with h2 | ⟨h2, h2'⟩
  · exact Or.inl (h2.trans h1)
  · exact Or.inl (h2 ▸ h1)
  · exact Or.inl (h1 ▸ h2)
  · exact Or.inr ⟨h1.trans h2, h1'.trans h2'⟩

theorem avalancheLt_neg_trans {a b c : SimDebt} (h1 : ¬ avalancheLt a b)
    (h2 : ¬ avalancheLt b c) : ¬ avalancheLt a c := by
  unfold avalancheLt at *
  push_neg at *
  rcases h1 with ⟨h1, h1'⟩
  rcases h2 with ⟨h2, h2'⟩
  refine ⟨le_trans h1 h2, fun hac => ?_⟩
  have h3 : b.apr ≤ a.apr := by rw [hac]; exact h2
  have hab : a.apr = b.apr := le_antisymm h1 h3
  have hbc : b.apr = c.apr := by rw [← hab, hac]
  exact le_trans (h2' hbc) (h1' hab)

/-! ## Helper lemmas on the month loop -/

/-- When every debt is already paid, the loop stops without touching
anything, whatever fuel remains. -/
theorem simLoop_allPaid (strategy : String) (planFn : ℕ → Plan) (fuel month : ℕ)
    (state : List SimDebt) (ti : ℚ) (acc : List TimelineEntry)
    (h : allPaidB state = true) :
    simLoop strategy planFn fuel month state ti acc = (state, ti, acc.reverse) := by
  cases fuel with
  | zero => rfl
  | succ fuel => rw [simLoop, if_pos h]

/-- An over-budget plan makes `monthBody` halt with the terminal invalid
entry, leaving the state untouched. -/
theorem monthBody_overBudget (strategy : String) (plan : Plan) (month : ℕ)
    (state : List SimDebt) (ti : ℚ) (h : plan.overBudget = true) :
    monthBody strategy plan month state ti
      = (state, ti,
          overBudgetEntry month plan (max 0 (round2 plan.monthlyPayment)) state ti,
          true, []) := by
  unfold monthBody
  rw [h]
  simp only [if_true]

/-- With a plan that is not over budget, `monthBody` does not halt. -/
theorem monthBody_halt_false (strategy : String) (plan : Plan) (month : ℕ)
    (state : List SimDebt) (ti : ℚ) (h : plan.overBudget = false) :
    (monthBody strategy plan month state ti).2.2.2.1 = false := by
  unfold monthBody
  rw [h]
  simp only [Bool.false_eq_true, if_false]

/-- With a plan that is not over budget, the entry `monthBody` records is
not invalid. -/
theorem monthBody_entry_valid (strategy : String) (plan : Plan) (month : ℕ)
    (state : List SimDebt) (ti : ℚ) (h : plan.overBudget = false) :
    (monthBody strategy plan month state ti).2.2.1.invalid = false := by
  unfold monthBody
  rw [h]
  simp only [Bool.false_eq_true, if_false]

theorem round2_max_zero_of_nonpos {p rs : ℚ} (h : p < rs) :
    round2 (max 0 (p - rs)) = 0 := by
  rw [max_eq_left (by linarith)]
  exact round2_eq_self isCent_zero

/-- With a plan that is not over budget, an under-funded month (required
sum above the funding) records `unassigned = 0`. -/
theorem monthBody_entry_unassigned_zero (strategy : String) (plan : Plan) (month : ℕ)
    (state : List SimDebt) (ti : ℚ) (h : plan.overBudget = false)
    (hlt : (monthBody strategy plan month state ti).2.2.1.paymentThisMonth
      < (monthBody strategy plan month state ti).2.2.1.requiredSum) :
    (monthBody strategy plan month state ti).2.2.1.unassigned = 0 := by
  unfold monthBody at hlt ⊢
  rw [h] at hlt ⊢
  simp only [Bool.false_eq_true, if_false] at hlt ⊢
  exact round2_max_zero_of_nonpos hlt

/-- Every entry a run of the loop appends under a never-over-budget plan
is valid, and reports `unassigned = 0` whenever its required sum exceeds
its funding. -/
theorem simLoop_entries_valid (strategy : String) (planFn : ℕ → Plan)
    (hplan : ∀ m, (planFn m).overBudget = false) :
    ∀ (fuel month : ℕ) (state : List SimDebt) (ti : ℚ) (acc : List TimelineEntry),
      ∀ e ∈ (simLoop strategy planFn fuel month state ti acc).2.2,
        e ∈ acc ∨ (e.invalid = false ∧
          (e.paymentThisMonth < e.requiredSum → e.unassigned = 0)) := by
  intro fuel
  induction fuel with
  | zero =>
    intro month state ti acc e he
    exact Or.inl (List.mem_reverse.mp he)
  | succ fuel ih =>
    intro month state ti acc e he
    rw [simLoop] at he
    by_cases hp : allPaidB state
    · rw [if_pos hp] at he
      exact Or.inl (List.mem_reverse.mp he)
    · rw [if_neg hp] at he
      simp only [monthBody_halt_false strategy (planFn month) month state ti (hplan month),
        Bool.false_eq_true, if_false] at he
      rcases ih (month + 1) _ _ _ e he with hmem | hgood
      · rcases List.mem_cons.mp hmem with rfl | hmem'
        · exact Or.inr ⟨monthBody_entry_valid _ _ _ _ _ (hplan month),
            monthBody_entry_unassigned_zero _ _ _ _ _ (hplan month)⟩
        · exact Or.inl hmem'
      · exact Or.inr hgood

/-- The loop appends at most `fuel` entries. -/
theorem simLoop_length_le (strategy : String) (planFn : ℕ → Plan) :
    ∀ (fuel month : ℕ) (state : List SimDebt) (ti : ℚ) (acc : List TimelineEntry),
      (simLoop strategy planFn fuel month state ti acc).2.2.length
        ≤ acc.length + fuel := by
  intro fuel
  induction fuel with
  | zero =>
    intro month state ti acc
    simp [simLoop]
  | succ fuel ih =>
    intro month state ti acc
    rw [simLoop]
    by_cases hp : allPaidB state
    · rw [if_pos hp]
      simp only [List.length_reverse]
      omega
    · rw [if_neg hp]
      by_cases hh : (monthBody strategy (planFn month) month state ti).2.2.2.1
      · simp only [hh, if_true, List.reverse_cons, List.length_append,
          List.length_reverse, List.length_cons, List.length_nil]
        omega
      · simp only [hh, Bool.false_eq_true, if_false]
        calc (simLoop strategy planFn fuel (month + 1)
                (monthBody strategy (planFn month) month state ti).1
                (monthBody strategy (planFn month) month state ti).2.1
                ((monthBody strategy (planFn month) month state ti).2.2.1 :: acc)).2.2.length
            ≤ ((monthBody strategy (planFn month) month state ti).2.2.1 :: acc).length
                + fuel := ih _ _ _ _
          _ = acc.length + (fuel + 1) := by simp [List.length_cons]; omega

/-! ## Evaluation of the 600-month run of `exSlowDebt` under `exPlanOne` -/

theorem round2_zero : round2 (0:ℚ) = 0 := round2_eq_self isCent_zero

theorem round2_one : round2 (1:ℚ) = 1 := round2_eq_self ⟨100, by norm_num⟩

theorem round2_twentyfive : round2 (25:ℚ) = 25 := round2_eq_self ⟨2500, by norm_num⟩

theorem slow_accrue (b : ℚ) (po : Option ℕ) (hcent : IsCent b) :
    accrue [exSlowState b po] 0 = ([exSlowState b po], 0) := by
  by_cases hb : b ≤ simEps
  · simp [accrue, exSlowState, hb]
  · simp [accrue, exSlowState, hb, round2_zero, round2_eq_self hcent]

theorem slow_mins (b : ℚ) (po : Option ℕ) (hb1 : simEps < b) (hb2 : b ≤ 600) :
    dynamicMins [exSlowState b po] [] = [("0", 25)] := by
  have hb : ¬ ((exSlowState b po).balance ≤ simEps) := not_le.mpr hb1
  have hb0 : (0:ℚ) ≤ b := le_of_lt (lt_trans (by norm_num [simEps]) hb1)
  have hcalc : computeMonthlyMinimumDynamic "other" 0 false 0 b = 25 := by
    unfold computeMonthlyMinimumDynamic estimateMinimumPayment
    simp only [Bool.false_eq_true, if_false]
    rw [if_neg (by decide), if_neg (by decide), if_neg (by decide)]
    rw [max_eq_right hb0, max_eq_right (le_refl (0:ℚ))]
    rw [max_eq_left (by
      rw [max_le_iff]
      constructor <;> nlinarith)]
  have hkey : jsIdToString (JsId.num 0) = "0" := rfl
  simp [dynamicMins, hb, exSlowState, hcalc, round2_twentyfive, jsObjSet, hkey, hb1]

theorem slow_required (b : ℚ) (po : Option ℕ) (m : ℕ) (hb1 : 1 ≤ b) (hcent : IsCent b) :
    requiredPhase [("0", 25)] none m [exSlowState b po]
      { remaining := 1, requiredSum := 0, minPaid := 0, directedPaid := 0, paid := [] }
    = ([exSlowState (b - 1) (if b - 1 ≤ simEps ∧ po = none then some m else po)],
       { remaining := 0, requiredSum := 25, minPaid := 1, directedPaid := 0,
         paid := [("0", 1)] }) := by
  have hb : ¬ ((exSlowState b po).balance ≤ simEps) := by
    show ¬ (b ≤ simEps)
    unfold simEps
    intro h
    linarith
  have hkey : jsIdToString (JsId.num 0) = "0" := rfl
  have hmin : jsObjGetD [("0", 25)] "0" = 25 := rfl
  have hzero : jsObjGetD ([] : JsObj) "0" = 0 := rfl
  have hmb : min b 1 = 1 := min_eq_right hb1
  have h25 : min (25:ℚ) 1 = 1 := by norm_num
  have hsum : round2 ((0:ℚ) + 25) = 25 := by rw [zero_add, round2_twentyfive]
  have hnb : round2 (b - 1) = b - 1 :=
    round2_eq_self (isCent_sub hcent ⟨100, by norm_num⟩)
  have hrem : round2 ((1:ℚ) - 1) = 0 := by norm_num [round2_zero]
  have h01 : (0:ℚ) < 1 := by norm_num
  have hb' : ¬ (b ≤ simEps) := hb
  simp [requiredPhase, requiredStep, intendedPayment, hb', exSlowState, hkey, hmin,
    hzero, hmb, h25, hsum, hnb, hrem, h01, round2_one, round2_zero, round2_twentyfive,
    jsObjSet]

/-- With no funding left, the extra-targeting loop does nothing. -/
theorem extraLoop_no_remaining (strategy : String) (month : ℕ) (fuel : ℕ)
    (state : List SimDebt) (acc : ExtraAcc) (h : acc.remaining = 0) :
    extraLoop strategy month fuel state acc = (state, acc) := by
  cases fuel with
  | zero => rfl
  | succ fuel =>
    rw [extraLoop, if_neg]
    intro hcontra
    rw [h] at hcontra
    exact absurd hcontra.1 (by norm_num [simEps])

/-- One whole month of the slow run: the single debt pays exactly 1, no
interest accrues, the loop does not halt. -/
theorem slow_monthBody (m : ℕ) (b : ℚ) (po : Option ℕ)
    (hcent : IsCent b) (h1 : 1 ≤ b) (h2 : b ≤ 600) :
    (monthBody "snowball" (exPlanOne m) m [exSlowState b po] 0).1
      = [exSlowState (b - 1) (if b - 1 ≤ simEps ∧ po = none then some m else po)] ∧
    (monthBody "snowball" (exPlanOne m) m [exSlowState b po] 0).2.1 = 0 ∧
    (monthBody "snowball" (exPlanOne m) m [exSlowState b po] 0).2.2.2.1 = false := by
  have hb1' : simEps < b := lt_of_lt_of_le (by norm_num [simEps]) h1
  have hpm : max (0:ℚ) 1 = 1 := by norm_num
  have hacc := slow_accrue b po hcent
  have hmins := slow_mins b po hb1' h2
  have hreq := slow_required b po m h1 hcent
  have hti : round2 ((0:ℚ) + 0) = 0 := by rw [add_zero, round2_zero]
  have hextra := fun fuel st => extraLoop_no_remaining "snowball" m fuel st
    { remaining := 0, extraPaid := 0, extraBy := [], paid := [("0", 1)] } rfl
  refine ⟨?_, ?_, ?_⟩ <;>
    simp [monthBody, exPlanOne, round2_one, round2_zero, hpm, hacc, hmins, hreq, hti,
      hextra]

/-- The slow run takes exactly its remaining balance in months: from
balance `k+1` it appends `k+1` entries and ends with balance `0`. -/
theorem slow_simLoop (k : ℕ) (hk : k ≤ 599) :
    ∀ (m : ℕ) (po : Option ℕ) (acc : List TimelineEntry),
      ∃ (po' : Option ℕ) (tl : List TimelineEntry),
        simLoop "snowball" exPlanOne (k + 1) m [exSlowState ((k : ℚ) + 1) po] 0 acc
          = ([exSlowState 0 po'], 0, tl) ∧ tl.length = acc.length + (k + 1) := by
  induction k with
  | zero =>
    intro m po acc
    have hlive : allPaidB [exSlowState ((0 : ℚ) + 1) po] = false := by
      norm_num [allPaidB, exSlowState, simEps]
    have hmb := slow_monthBody m ((0 : ℚ) + 1) po ⟨100, by norm_num⟩ (by norm_num)
      (by norm_num)
    refine ⟨if (0:ℚ) + 1 - 1 ≤ simEps ∧ po = none then some m else po,
      ((monthBody "snowball" (exPlanOne m) m
        [exSlowState ((0:ℚ) + 1) po] 0).2.2.1 :: acc).reverse, ?_, ?_⟩
    · have hcast : ((0 : ℕ) : ℚ) + 1 = (0 : ℚ) + 1 := by norm_num
      rw [show (0 + 1 : ℕ) = 1 from rfl, hcast]
      rw [simLoop, if_neg (by rw [hlive]; exact Bool.false_ne_true)]
      simp only [hmb.2.2, Bool.false_eq_true, if_false]
      rw [simLoop, hmb.1, hmb.2.1]
      norm_num [exSlowState]
    · simp
  | succ k ih =>
    intro m po acc
    have hk' : k ≤ 599 := Nat.le_of_succ_le hk
    have hcent : IsCent ((k : ℚ) + 1 + 1) := ⟨100 * k + 200, by push_cast; ring⟩
    have hlive : allPaidB [exSlowState ((k : ℚ) + 1 + 1) po] = false := by
      have : simEps < (k : ℚ) + 1 + 1 := by
        unfold simEps
        have : (0:ℚ) ≤ (k:ℚ) := Nat.cast_nonneg k
        linarith
      norm_num [allPaidB, exSlowState, simEps]
      unfold simEps at this
      linarith
    have hmb := slow_monthBody m ((k : ℚ) + 1 + 1) po hcent
      (by have : (0:ℚ) ≤ (k:ℚ) := Nat.cast_nonneg k; linarith)
      (by
        have hk598 : k ≤ 598 := by omega
        have : (k : ℚ) ≤ 598 := by exact_mod_cast hk598
        linarith)
    have hb1 : (k : ℚ) + 1 + 1 - 1 = (k : ℚ) + 1 := by ring
    have hpo : ¬ ((k : ℚ) + 1 + 1 - 1 ≤ simEps ∧ po = none) := by
      intro hcontra
      rw [hb1] at hcontra
      have : (0:ℚ) ≤ (k:ℚ) := Nat.cast_nonneg k
      have := hcontra.1
      unfold simEps at this
      linarith
    obtain ⟨po', tl, heq, hlen⟩ := ih hk' (m + 1) po
      ((monthBody "snowball" (exPlanOne m) m [exSlowState ((k : ℚ) + 1 + 1) po] 0).2.2.1
        :: acc)
    refine ⟨po', tl, ?_, ?_⟩
    · have hcast : ((k + 1 : ℕ) : ℚ) + 1 = (k : ℚ) + 1 + 1 := by push_cast; ring
      rw [show ((k:ℕ) + 1 + 1) = (k + 1) + 1 from rfl]
      rw [hcast]
      rw [simLoop, if_neg (by rw [hlive]; exact Bool.false_ne_true)]
      simp only [hmb.2.2, Bool.false_eq_true, if_false]
      rw [hmb.1, hmb.2.1, if_neg hpo, hb1]
      exact heq
    · rw [hlen]
      simp
      omega

/-! ## Phase specifications for the month body -/

theorem SimInv.head {d : SimDebt} {rest : List SimDebt} (h : SimInv (d :: rest)) :
    0 ≤ d.balance ∧ IsCent d.balance ∧ IsCent d.interestPaid ∧ 0 ≤ d.r :=
  h d (List.mem_cons_self _ _)

theorem SimInv.tail {d : SimDebt} {rest : List SimDebt} (h : SimInv (d :: rest)) :
    SimInv rest := fun e he => h e (List.mem_cons_of_mem _ he)

theorem SimInv.cons {d : SimDebt} {rest : List SimDebt}
    (hd : 0 ≤ d.balance ∧ IsCent d.balance ∧ IsCent d.interestPaid ∧ 0 ≤ d.r)
    (h : SimInv rest) : SimInv (d :: rest) := by
  intro e he
  rcases List.mem_cons.mp he with rfl | he'
  · exact hd
  · exact h e he'

/-- Interest accrual: ids, names are unchanged; each balance grows by
exactly the interest credited to the debt's cumulative interest; the
numeric invariant is preserved. -/
theorem accrue_spec : ∀ (st : List SimDebt) (t : ℚ), SimInv st →
    (accrue st t).1.length = st.length ∧ SimInv (accrue st t).1 ∧
    ∀ i, i < st.length →
      ((accrue st t).1.getD i dummyDebt).id = (st.getD i dummyDebt).id ∧
      ((accrue st t).1.getD i dummyDebt).name = (st.getD i dummyDebt).name ∧
      (st.getD i dummyDebt).interestPaid
        ≤ ((accrue st t).1.getD i dummyDebt).interestPaid ∧
      ((accrue st t).1.getD i dummyDebt).balance
        = (st.getD i dummyDebt).balance
          + (((accrue st t).1.getD i dummyDebt).interestPaid
             - (st.getD i dummyDebt).interestPaid) := by
  intro st
  induction st with
  | nil =>
    intro t _
    refine ⟨rfl, fun d hd => absurd hd (List.not_mem_nil d), fun i hi => absurd hi (by simp)⟩
  | cons d rest ih =>
    intro t hInv
    by_cases hb : d.balance ≤ simEps
    · have hrec := ih t hInv.tail
      have hacc : accrue (d :: rest) t = (d :: (accrue rest t).1, (accrue rest t).2) := by
        rw [accrue, if_pos hb]
      rw [hacc]
      refine ⟨by simp [hrec.1], SimInv.cons hInv.head hrec.2.1, ?_⟩
      intro i hi
      cases i with
      | zero => simp
      | succ i =>
        simp only [List.getD_cons_succ]
        exact hrec.2.2 i (by simpa using hi)
    · obtain ⟨hb0, hbc, hic, hr0⟩ := hInv.head
      have hint : 0 ≤ round2 (d.balance * d.r) := round2_nonneg (mul_nonneg hb0 hr0)
      have hintc : IsCent (round2 (d.balance * d.r)) := isCent_round2 _
      have hb1 : round2 (d.balance + round2 (d.balance * d.r))
          = d.balance + round2 (d.balance * d.r) :=
        round2_eq_self (isCent_add hbc hintc)
      have hi1 : round2 (d.interestPaid + round2 (d.balance * d.r))
          = d.interestPaid + round2 (d.balance * d.r) :=
        round2_eq_self (isCent_add hic hintc)
      have hrec := ih (round2 (t + round2 (d.balance * d.r))) hInv.tail
      have hacc : accrue (d :: rest) t
          = ({ d with
                balance := round2 (d.balance + round2 (d.balance * d.r))
                interestPaid := round2 (d.interestPaid + round2 (d.balance * d.r)) }
              :: (accrue rest (round2 (t + round2 (d.balance * d.r)))).1,
             (accrue rest (round2 (t + round2 (d.balance * d.r)))).2) := by
        rw [accrue, if_neg hb]
      rw [hacc]
      refine ⟨by simp [hrec.1], ?_, ?_⟩
      · refine SimInv.cons ?_ hrec.2.1
        refine ⟨?_, ?_, ?_, hr0⟩
        · dsimp only; rw [hb1]; linarith
        · dsimp only; rw [hb1]; exact isCent_add hbc hintc
        · dsimp only; rw [hi1]; exact isCent_add hic hintc
      · intro i hi
        cases i with
        | zero =>
          refine ⟨rfl, rfl, ?_, ?_⟩
          · simp only [List.getD_cons_zero]
            rw [hi1]
            linarith
          · simp only [List.getD_cons_zero]
            rw [hb1, hi1]
            ring
        | succ i =>
          simp only [List.getD_cons_succ]
          exact hrec.2.2 i (by simpa using hi)

theorem jsObjGetD_cent (o : JsObj) (k : String) (h : ∀ kv ∈ o, IsCent kv.2) :
    IsCent (jsObjGetD o k) := by
  unfold jsObjGetD jsObjGet
  cases hf : o.find? fun kv => kv.1 == k with
  | none => exact isCent_zero
  | some kv => simpa using h kv (List.mem_of_find?_eq_some hf)

theorem jsObjSet_values_cent {o : JsObj} {k : String} {v : ℚ}
    (ho : ∀ kv ∈ o, IsCent kv.2) (hv : IsCent v) :
    ∀ kv ∈ jsObjSet o k v, IsCent kv.2 := by
  intro kv hkv
  rcases mem_jsObjSet hkv with rfl | h
  · exact hv
  · exact ho kv h

theorem jsObjSet_values_nonneg {o : JsObj} {k : String} {v : ℚ}
    (ho : ∀ kv ∈ o, 0 ≤ kv.2) (hv : 0 ≤ v) :
    ∀ kv ∈ jsObjSet o k v, 0 ≤ kv.2 := by
  intro kv hkv
  rcases mem_jsObjSet hkv with rfl | h
  · exact hv
  · exact ho kv h

theorem getD_mem {l : List SimDebt} {i : ℕ} (hi : i < l.length) :
    l.getD i dummyDebt ∈ l := by
  rw [List.getD_eq_getElem l dummyDebt hi]
  exact List.getElem_mem hi

theorem keyOf_getD_mem {l : List SimDebt} {i : ℕ} (hi : i < l.length) :
    keyOf (l.getD i dummyDebt) ∈ l.map keyOf :=
  List.mem_map_of_mem keyOf (getD_mem hi)

/-- One step of the required-disbursement loop: identity fields are
unchanged, the balance shrinks (staying a non-negative whole cent
amount), the remaining funding shrinks accordingly, and the paid map
gains exactly the balance decrease on the debt's own key. -/
theorem requiredStep_spec (mins : JsObj) (planReq : Option JsObj) (month : ℕ)
    (d : SimDebt) (acc : ReqAcc)
    (hmins : ∀ kv ∈ mins, 0 ≤ kv.2)
    (hd : 0 ≤ d.balance ∧ IsCent d.balance ∧ IsCent d.interestPaid ∧ 0 ≤ d.r)
    (hrem : 0 ≤ acc.remaining) (hremc : IsCent acc.remaining)
    (hpc : ∀ kv ∈ acc.paid, IsCent kv.2) :
    (requiredStep mins planReq month d acc).1.id = d.id ∧
    (requiredStep mins planReq month d acc).1.name = d.name ∧
    (requiredStep mins planReq month d acc).1.interestPaid = d.interestPaid ∧
    (requiredStep mins planReq month d acc).1.r = d.r ∧
    (0 ≤ (requiredStep mins planReq month d acc).1.balance ∧
      IsCent (requiredStep mins planReq month d acc).1.balance ∧
      (requiredStep mins planReq month d acc).1.balance ≤ d.balance) ∧
    (0 ≤ (requiredStep mins planReq month d acc).2.remaining ∧
      IsCent (requiredStep mins planReq month d acc).2.remaining) ∧
    (∀ kv ∈ (requiredStep mins planReq month d acc).2.paid, IsCent kv.2) ∧
    jsObjGetD (requiredStep mins planReq month d acc).2.paid (jsIdToString d.id)
      = jsObjGetD acc.paid (jsIdToString d.id)
        + (d.balance - (requiredStep mins planReq month d acc).1.balance) ∧
    (∀ k, k ≠ jsIdToString d.id →
      jsObjGetD (requiredStep mins planReq month d acc).2.paid k
        = jsObjGetD acc.paid k) ∧
    (∀ kv ∈ (requiredStep mins planReq month d acc).2.paid,
      kv ∈ acc.paid ∨ kv.1 = jsIdToString d.id) := by
  obtain ⟨hd0, hdc, hdic, hdr⟩ := hd
  have hdmin0 : 0 ≤ jsObjGetD mins (jsIdToString d.id) := jsObjGetD_nonneg _ _ hmins
  have hint0 : 0 ≤ intendedPayment planReq (jsObjGetD mins (jsIdToString d.id)) d := by
    cases planReq with
    | none => exact hdmin0
    | some req =>
      show 0 ≤ max (max 0 (jsObjGetD req (jsIdToString d.id)))
        (jsObjGetD mins (jsIdToString d.id))
      exact le_max_of_le_right hdmin0
  have hpay0 : 0 ≤ round2 (min
      (intendedPayment planReq (jsObjGetD mins (jsIdToString d.id)) d)
      (min d.balance acc.remaining)) :=
    round2_nonneg (le_min hint0 (le_min hd0 hrem))
  have hpayb : round2 (min
      (intendedPayment planReq (jsObjGetD mins (jsIdToString d.id)) d)
      (min d.balance acc.remaining)) ≤ d.balance := by
    calc round2 (min (intendedPayment planReq (jsObjGetD mins (jsIdToString d.id)) d)
          (min d.balance acc.remaining))
        ≤ round2 d.balance :=
          round2_mono (le_trans (min_le_right _ _) (min_le_left _ _))
      _ = d.balance := round2_eq_self hdc
  have hpayr : round2 (min
      (intendedPayment planReq (jsObjGetD mins (jsIdToString d.id)) d)
      (min d.balance acc.remaining)) ≤ acc.remaining := by
    calc round2 (min (intendedPayment planReq (jsObjGetD mins (jsIdToString d.id)) d)
          (min d.balance acc.remaining))
        ≤ round2 acc.remaining :=
          round2_mono (le_trans (min_le_right _ _) (min_le_right _ _))
      _ = acc.remaining := round2_eq_self hremc
  have hnb : round2 (d.balance - round2 (min
      (intendedPayment planReq (jsObjGetD mins (jsIdToString d.id)) d)
      (min d.balance acc.remaining)))
      = d.balance - round2 (min
      (intendedPayment planReq (jsObjGetD mins (jsIdToString d.id)) d)
      (min d.balance acc.remaining)) :=
    round2_eq_self (isCent_sub hdc (isCent_round2 _))
  have hrm : round2 (acc.remaining - round2 (min
      (intendedPayment planReq (jsObjGetD mins (jsIdToString d.id)) d)
      (min d.balance acc.remaining)))
      = acc.remaining - round2 (min
      (intendedPayment planReq (jsObjGetD mins (jsIdToString d.id)) d)
      (min d.balance acc.remaining)) :=
    round2_eq_self (isCent_sub hremc (isCent_round2 _))
  have hpv : round2 (jsObjGetD acc.paid (jsIdToString d.id) + round2 (min
      (intendedPayment planReq (jsObjGetD mins (jsIdToString d.id)) d)
      (min d.balance acc.remaining)))
      = jsObjGetD acc.paid (jsIdToString d.id) + round2 (min
      (intendedPayment planReq (jsObjGetD mins (jsIdToString d.id)) d)
      (min d.balance acc.remaining)) :=
    round2_eq_self (isCent_add (jsObjGetD_cent _ _ hpc) (isCent_round2 _))
  by_cases hp : 0 < round2 (min
      (intendedPayment planReq (jsObjGetD mins (jsIdToString d.id)) d)
      (min d.balance acc.remaining))
  · unfold requiredStep
    dsimp only
    rw [if_pos hp]
    dsimp only
    refine ⟨rfl, rfl, rfl, rfl, ⟨?_, isCent_round2 _, ?_⟩, ⟨?_, isCent_round2 _⟩,
      jsObjSet_values_cent hpc (isCent_round2 _), ?_, ?_, ?_⟩
    · rw [hnb]; linarith
    · rw [hnb]; linarith
    · rw [hrm]; linarith
    · rw [jsObjGetD_set_self, hpv, hnb]; ring
    · intro k hk
      exact jsObjGetD_set_ne _ _ _ _ hk
    · intro kv hkv
      rcases mem_jsObjSet hkv with rfl | h
      · exact Or.inr rfl
      · exact Or.inl h
  · unfold requiredStep
    dsimp only
    rw [if_neg hp]
    dsimp only
    refine ⟨rfl, rfl, rfl, rfl, ⟨hd0, hdc, le_refl _⟩, ⟨hrem, hremc⟩, hpc, ?_,
      fun k _ => rfl, fun kv hkv => Or.inl hkv⟩
    ring

/-- Required disbursement over a list of debts with distinct id strings:
ids, names and cumulative interest unchanged; balances only shrink and
stay non-negative; the paid map gains exactly each debt's balance
decrease on that debt's key and touches no other key. -/
theorem requiredPhase_spec (mins : JsObj) (planReq : Option JsObj) (month : ℕ)
    (hmins : ∀ kv ∈ mins, 0 ≤ kv.2) :
    ∀ (l : List SimDebt) (acc : ReqAcc),
    SimInv l → 0 ≤ acc.remaining → IsCent acc.remaining →
    (∀ kv ∈ acc.paid, IsCent kv.2) →
    ((l.map keyOf).Nodup) →
    (requiredPhase mins planReq month l acc).1.length = l.length ∧
    SimInv (requiredPhase mins planReq month l acc).1 ∧
    (0 ≤ (requiredPhase mins planReq month l acc).2.remaining ∧
      IsCent (requiredPhase mins planReq month l acc).2.remaining) ∧
    (∀ kv ∈ (requiredPhase mins planReq month l acc).2.paid, IsCent kv.2) ∧
    (∀ k, k ∉ l.map keyOf →
      jsObjGetD (requiredPhase mins planReq month l acc).2.paid k
        = jsObjGetD acc.paid k) ∧
    (∀ i, i < l.length →
      ((requiredPhase mins planReq month l acc).1.getD i dummyDebt).id
          = (l.getD i dummyDebt).id ∧
      ((requiredPhase mins planReq month l acc).1.getD i dummyDebt).name
          = (l.getD i dummyDebt).name ∧
      ((requiredPhase mins planReq month l acc).1.getD i dummyDebt).interestPaid
          = (l.getD i dummyDebt).interestPaid ∧
      0 ≤ ((requiredPhase mins planReq month l acc).1.getD i dummyDebt).balance ∧
      jsObjGetD (requiredPhase mins planReq month l acc).2.paid
          (keyOf (l.getD i dummyDebt))
        = jsObjGetD acc.paid (keyOf (l.getD i dummyDebt))
          + ((l.getD i dummyDebt).balance
             - ((requiredPhase mins planReq month l acc).1.getD i dummyDebt).balance)) := by
  intro l
  induction l with
  | nil =>
    intro acc hInv hrem hremc hpc _
    exact ⟨rfl, hInv, ⟨hrem, hremc⟩, hpc, fun k _ => rfl,
      fun i hi => absurd hi (by simp)⟩
  | cons d rest ih =>
    intro acc hInv hrem hremc hpc hnd
    rw [List.map_cons, List.nodup_cons] at hnd
    obtain ⟨hd0, hdc, hdic, hdr⟩ := hInv.head
    by_cases hb : d.balance ≤ simEps
    · have hrec := ih acc hInv.tail hrem hremc hpc hnd.2
      have heq : requiredPhase mins planReq month (d :: rest) acc
          = (d :: (requiredPhase mins planReq month rest acc).1,
             (requiredPhase mins planReq month rest acc).2) := by
        rw [requiredPhase, if_pos hb]
      rw [heq]
      refine ⟨by simp [hrec.1], SimInv.cons hInv.head hrec.2.1, hrec.2.2.1,
        hrec.2.2.2.1, ?_, ?_⟩
      · intro k hk
        simp only [List.map_cons, List.mem_cons] at hk
        push_neg at hk
        exact hrec.2.2.2.2.1 k hk.2
      · intro i hi
        cases i with
        | zero =>
          simp only [List.getD_cons_zero]
          refine ⟨True.intro, True.intro, True.intro, hd0, ?_⟩
          rw [hrec.2.2.2.2.1 (keyOf d) hnd.1]
          ring
        | succ i =>
          simp only [List.getD_cons_succ]
          exact hrec.2.2.2.2.2 i (by simpa using hi)
    · have hstep := requiredStep_spec mins planReq month d acc hmins
        ⟨hd0, hdc, hdic, hdr⟩ hrem hremc hpc
      obtain ⟨sid, sname, sip, sr, ⟨sb0, sbc, sble⟩, ⟨srem0, sremc⟩, spc, sget,
        sgetne, _⟩ := hstep
      have heq : requiredPhase mins planReq month (d :: rest) acc
          = ((requiredStep mins planReq month d acc).1
              :: (requiredPhase mins planReq month rest
                   (requiredStep mins planReq month d acc).2).1,
             (requiredPhase mins planReq month rest
               (requiredStep mins planReq month d acc).2).2) := by
        rw [requiredPhase, if_neg hb]
      have hrec := ih (requiredStep mins planReq month d acc).2 hInv.tail
        srem0 sremc spc hnd.2
      rw [heq]
      refine ⟨by simp [hrec.1], ?_, hrec.2.2.1, hrec.2.2.2.1, ?_, ?_⟩
      · refine SimInv.cons ⟨sb0, sbc, ?_, ?_⟩ hrec.2.1
        · rw [sip]; exact hdic
        · rw [sr]; exact hdr
      · intro k hk
        simp only [List.map_cons, List.mem_cons] at hk
        push_neg at hk
        rw [hrec.2.2.2.2.1 k hk.2]
        exact sgetne k hk.1
      · intro i hi
        cases i with
        | zero =>
          simp only [List.getD_cons_zero]
          refine ⟨sid, sname, sip, sb0, ?_⟩
          rw [hrec.2.2.2.2.1 (keyOf d) hnd.1]
          exact sget
        | succ i =>
          simp only [List.getD_cons_succ]
          have hi' : i < rest.length := by simpa using hi
          obtain ⟨e1, e2, e3, e4, e5⟩ := hrec.2.2.2.2.2 i hi'
          refine ⟨e1, e2, e3, e4, ?_⟩
          rw [e5]
          congr 1
          apply sgetne
          intro hcontra
          have hco : keyOf (rest.getD i dummyDebt) = keyOf d := hcontra
          exact hnd.1 (hco ▸ keyOf_getD_mem hi')

theorem map_keyOf_eq_of_ids {st st' : List SimDebt} (hlen : st'.length = st.length)
    (hid : ∀ i, i < st.length →
      (st'.getD i dummyDebt).id = (st.getD i dummyDebt).id) :
    st'.map keyOf = st.map keyOf := by
  apply List.ext_getElem (by simp [hlen])
  intro i h1 h2
  simp only [List.getElem_map]
  have h2' : i < st.length := by simpa using h2
  have h1' : i < st'.length := by simpa using h1
  have := hid i h2'
  rw [List.getD_eq_getElem st' dummyDebt h1', List.getD_eq_getElem st dummyDebt h2'] at this
  unfold keyOf
  rw [this]

/-- Replacing the first `===`-match: lengths and identity fields are
unchanged; the unique index whose key equals the target's key receives
`f`, every other index is untouched. -/
theorem payFirstMatch_spec (tid : JsId) (t : SimDebt) (f : SimDebt → SimDebt)
    (hf_id : ∀ d, (f d).id = d.id) (hf_name : ∀ d, (f d).name = d.name)
    (hf_ip : ∀ d, (f d).interestPaid = d.interestPaid)
    (hf_r : ∀ d, (f d).r = d.r) :
    ∀ st : List SimDebt, (st.map keyOf).Nodup →
      st.find? (fun x => jsEq x.id tid) = some t →
      (payFirstMatch tid f st).length = st.length ∧
      (∀ i, i < st.length →
        ((payFirstMatch tid f st).getD i dummyDebt).id = (st.getD i dummyDebt).id ∧
        ((payFirstMatch tid f st).getD i dummyDebt).name = (st.getD i dummyDebt).name ∧
        ((payFirstMatch tid f st).getD i dummyDebt).interestPaid
          = (st.getD i dummyDebt).interestPaid ∧
        ((payFirstMatch tid f st).getD i dummyDebt).r = (st.getD i dummyDebt).r ∧
        (if keyOf (st.getD i dummyDebt) = keyOf t then
          (payFirstMatch tid f st).getD i dummyDebt = f (st.getD i dummyDebt) ∧
            st.getD i dummyDebt = t
         else (payFirstMatch tid f st).getD i dummyDebt = st.getD i dummyDebt)) := by
  intro st
  induction st with
  | nil =>
    intro _ hfind
    cases hfind
  | cons d rest ih =>
    intro hnd hfind
    rw [List.map_cons, List.nodup_cons] at hnd
    by_cases hd : jsEq d.id tid = true
    · rw [List.find?_cons] at hfind
      rw [hd] at hfind
      simp only at hfind
      injection hfind with hfind
      subst hfind
      have heq : payFirstMatch tid f (d :: rest) = f d :: rest := by
        rw [payFirstMatch, if_pos hd]
      rw [heq]
      refine ⟨by simp, ?_⟩
      intro i hi
      cases i with
      | zero =>
        rw [List.getD_cons_zero, List.getD_cons_zero]
        refine ⟨hf_id d, hf_name d, hf_ip d, hf_r d, ?_⟩
        rw [if_pos rfl]
        exact ⟨rfl, rfl⟩
      | succ i =>
        have hi' : i < rest.length := by simpa using hi
        have hne : keyOf (rest.getD i dummyDebt) ≠ keyOf d := by
          intro hcontra
          exact hnd.1 (hcontra ▸ keyOf_getD_mem hi')
        rw [List.getD_cons_succ, List.getD_cons_succ]
        refine ⟨rfl, rfl, rfl, rfl, ?_⟩
        rw [if_neg hne]
    · rw [Bool.not_eq_true] at hd
      rw [List.find?_cons] at hfind
      rw [hd] at hfind
      simp only at hfind
      have htmem : t ∈ rest := List.mem_of_find?_eq_some hfind
      have hkdt : keyOf d ≠ keyOf t := by
        intro hcontra
        exact hnd.1 (hcontra ▸ List.mem_map_of_mem keyOf htmem)
      have heq : payFirstMatch tid f (d :: rest) = d :: payFirstMatch tid f rest := by
        rw [payFirstMatch, if_neg (by rw [hd]; exact Bool.false_ne_true)]
      rw [heq]
      have hrec := ih hnd.2 hfind
      refine ⟨by simp [hrec.1], ?_⟩
      intro i hi
      cases i with
      | zero =>
        rw [List.getD_cons_zero, List.getD_cons_zero]
        refine ⟨rfl, rfl, rfl, rfl, ?_⟩
        rw [if_neg hkdt]
      | succ i =>
        rw [List.getD_cons_succ, List.getD_cons_succ]
        exact hrec.2 i (by simpa using hi)


theorem SimInv_of_getD {st : List SimDebt}
    (h : ∀ i, i < st.length → 0 ≤ (st.getD i dummyDebt).balance ∧
      IsCent (st.getD i dummyDebt).balance ∧
      IsCent (st.getD i dummyDebt).interestPaid ∧ 0 ≤ (st.getD i dummyDebt).r) :
    SimInv st := by
  intro d hd
  obtain ⟨i, hi, rfl⟩ := List.mem_iff_getElem.mp hd
  have := h i hi
  rwa [List.getD_eq_getElem st dummyDebt hi] at this

/-- The conclusion bundle of `extraLoop_spec` holds trivially when the
loop returns its inputs unchanged. -/
theorem extraLoop_post_trivial (st : List SimDebt) (acc : ExtraAcc)
    (hInv : SimInv st) (hpc : ∀ kv ∈ acc.paid, IsCent kv.2) :
    st.length = st.length ∧
    SimInv st ∧
    (∀ kv ∈ acc.paid, IsCent kv.2) ∧
    (∀ k, k ∉ st.map keyOf → jsObjGetD acc.paid k = jsObjGetD acc.paid k) ∧
    (∀ i, i < st.length →
      (st.getD i dummyDebt).id = (st.getD i dummyDebt).id ∧
      (st.getD i dummyDebt).name = (st.getD i dummyDebt).name ∧
      (st.getD i dummyDebt).interestPaid = (st.getD i dummyDebt).interestPaid ∧
      0 ≤ (st.getD i dummyDebt).balance ∧
      jsObjGetD acc.paid (keyOf (st.getD i dummyDebt))
        = jsObjGetD acc.paid (keyOf (st.getD i dummyDebt))
          + ((st.getD i dummyDebt).balance - (st.getD i dummyDebt).balance)) := by
  refine ⟨rfl, hInv, hpc, fun k _ => rfl, ?_⟩
  intro i hi
  exact ⟨rfl, rfl, rfl, (hInv _ (getD_mem hi)).1, by ring⟩

/-- The extra-targeting loop: ids, names and cumulative interest
unchanged; balances only shrink, staying non-negative; the paid map gains
exactly each debt's balance decrease on that debt's key and touches no
other key. -/
theorem extraLoop_spec (strategy : String) (month : ℕ) :
    ∀ (fuel : ℕ) (st : List SimDebt) (acc : ExtraAcc),
    SimInv st → 0 ≤ acc.remaining → IsCent acc.remaining →
    (∀ kv ∈ acc.paid, IsCent kv.2) →
    ((st.map keyOf).Nodup) →
    (extraLoop strategy month fuel st acc).1.length = st.length ∧
    SimInv (extraLoop strategy month fuel st acc).1 ∧
    (∀ kv ∈ (extraLoop strategy month fuel st acc).2.paid, IsCent kv.2) ∧
    (∀ k, k ∉ st.map keyOf →
      jsObjGetD (extraLoop strategy month fuel st acc).2.paid k
        = jsObjGetD acc.paid k) ∧
    (∀ i, i < st.length →
      ((extraLoop strategy month fuel st acc).1.getD i dummyDebt).id
          = (st.getD i dummyDebt).id ∧
      ((extraLoop strategy month fuel st acc).1.getD i dummyDebt).name
          = (st.getD i dummyDebt).name ∧
      ((extraLoop strategy month fuel st acc).1.getD i dummyDebt).interestPaid
          = (st.getD i dummyDebt).interestPaid ∧
      0 ≤ ((extraLoop strategy month fuel st acc).1.getD i dummyDebt).balance ∧
      jsObjGetD (extraLoop strategy month fuel st acc).2.paid
          (keyOf (st.getD i dummyDebt))
        = jsObjGetD acc.paid (keyOf (st.getD i dummyDebt))
          + ((st.getD i dummyDebt).balance
             - ((extraLoop strategy month fuel st acc).1.getD i dummyDebt).balance)) := by
  intro fuel
  induction fuel with
  | zero =>
    intro st acc hInv hrem hremc hpc hnd
    exact extraLoop_post_trivial st acc hInv hpc
  | succ fuel ih =>
    intro st acc hInv hrem hremc hpc hnd
    rw [extraLoop]
    by_cases hcond : simEps < acc.remaining ∧ allPaidB st = false
    case neg =>
      rw [if_neg hcond]
      exact extraLoop_post_trivial st acc hInv hpc
    case pos =>
      rw [if_pos hcond]
      cases hpick : pickTargetId strategy st with
      | none => exact extraLoop_post_trivial st acc hInv hpc
      | some tid =>
        dsimp only
        cases hfind : st.find? fun x => jsEq x.id tid with
        | none => exact extraLoop_post_trivial st acc hInv hpc
        | some t =>
          dsimp only
          by_cases htb : t.balance ≤ simEps
          · rw [if_pos htb]
            exact extraLoop_post_trivial st acc hInv hpc
          · rw [if_neg htb]
            by_cases hpp : round2 (min t.balance acc.remaining) ≤ 0
            · rw [if_pos hpp]
              exact extraLoop_post_trivial st acc hInv hpc
            · rw [if_neg hpp]
              have htmem : t ∈ st := List.mem_of_find?_eq_some hfind
              obtain ⟨ht0, htc, htic, htr⟩ := hInv t htmem
              have hpt := List.find?_some hfind
              have htid : t.id = tid := (jsEq_true_iff.mp hpt).1
              have hkeyt : jsIdToString tid = keyOf t := by
                unfold keyOf
                rw [htid]
              have hpay0 : 0 ≤ round2 (min t.balance acc.remaining) :=
                round2_nonneg (le_min ht0 hrem)
              have hpayc : IsCent (round2 (min t.balance acc.remaining)) :=
                isCent_round2 _
              have hpayb : round2 (min t.balance acc.remaining) ≤ t.balance := by
                calc round2 (min t.balance acc.remaining)
                    ≤ round2 t.balance := round2_mono (min_le_left _ _)
                  _ = t.balance := round2_eq_self htc
              have hpayr : round2 (min t.balance acc.remaining) ≤ acc.remaining := by
                calc round2 (min t.balance acc.remaining)
                    ≤ round2 acc.remaining := round2_mono (min_le_right _ _)
                  _ = acc.remaining := round2_eq_self hremc
              have hpfm := payFirstMatch_spec tid t
                (fun d => { d with
                  balance := round2 (d.balance - round2 (min t.balance acc.remaining))
                  payoffMonth :=
                    if round2 (d.balance - round2 (min t.balance acc.remaining)) ≤ simEps
                        ∧ d.payoffMonth = none
                    then some month else d.payoffMonth })
                (fun d => rfl) (fun d => rfl) (fun d => rfl) (fun d => rfl)
                st hnd hfind
              have hids : ∀ i, i < st.length →
                  ((payFirstMatch tid (fun d => { d with
                    balance := round2 (d.balance - round2 (min t.balance acc.remaining))
                    payoffMonth :=
                      if round2 (d.balance - round2 (min t.balance acc.remaining)) ≤ simEps
                          ∧ d.payoffMonth = none
                      then some month else d.payoffMonth }) st).getD i dummyDebt).id
                    = (st.getD i dummyDebt).id :=
                fun i hi => (hpfm.2 i hi).1
              have hkeys : (payFirstMatch tid (fun d => { d with
                  balance := round2 (d.balance - round2 (min t.balance acc.remaining))
                  payoffMonth :=
                    if round2 (d.balance - round2 (min t.balance acc.remaining)) ≤ simEps
                        ∧ d.payoffMonth = none
                    then some month else d.payoffMonth }) st).map keyOf
                  = st.map keyOf :=
                map_keyOf_eq_of_ids hpfm.1 hids
              have hInv' : SimInv (payFirstMatch tid (fun d => { d with
                  balance := round2 (d.balance - round2 (min t.balance acc.remaining))
                  payoffMonth :=
                    if round2 (d.balance - round2 (min t.balance acc.remaining)) ≤ simEps
                        ∧ d.payoffMonth = none
                    then some month else d.payoffMonth }) st) := by
                apply SimInv_of_getD
                intro i hi'
                have hi : i < st.length := by rw [← hpfm.1]; exact hi'
                obtain ⟨e1, e2, e3, e4, e5⟩ := hpfm.2 i hi
                obtain ⟨o0, oc, oic, or0⟩ := hInv _ (getD_mem hi)
                by_cases hkey : keyOf (st.getD i dummyDebt) = keyOf t
                · rw [if_pos hkey] at e5
                  obtain ⟨hfd, hteq⟩ := e5
                  rw [hfd, hteq]
                  refine ⟨?_, ?_, htic, htr⟩
                  · show 0 ≤ round2 (t.balance - round2 (min t.balance acc.remaining))
                    rw [round2_eq_self (isCent_sub htc hpayc)]
                    linarith
                  · exact isCent_round2 _
                · rw [if_neg hkey] at e5
                  rw [e5]
                  exact ⟨o0, oc, oic, or0⟩
              have hrec := ih _
                { remaining := round2 (acc.remaining - round2 (min t.balance acc.remaining)),
                  extraPaid := round2 (acc.extraPaid + round2 (min t.balance acc.remaining)),
                  extraBy := jsObjSet acc.extraBy (jsIdToString tid) (round2 (jsObjGetD acc.extraBy (jsIdToString tid) + round2 (min t.balance acc.remaining))),
                  paid := jsObjSet acc.paid (jsIdToString tid) (round2 (jsObjGetD acc.paid (jsIdToString tid) + round2 (min t.balance acc.remaining))) }
                hInv'
                (by
                  show 0 ≤ round2 (acc.remaining - round2 (min t.balance acc.remaining))
                  rw [round2_eq_self (isCent_sub hremc hpayc)]
                  linarith)
                (isCent_round2 _)
                (jsObjSet_values_cent hpc (isCent_round2 _))
                (by rw [hkeys]; exact hnd)
              have hpv : round2 (jsObjGetD acc.paid (jsIdToString tid)
                  + round2 (min t.balance acc.remaining))
                  = jsObjGetD acc.paid (jsIdToString tid)
                    + round2 (min t.balance acc.remaining) :=
                round2_eq_self (isCent_add (jsObjGetD_cent _ _ hpc) hpayc)
              refine ⟨by rw [hrec.1, hpfm.1], hrec.2.1, hrec.2.2.1, ?_, ?_⟩
              · intro k hk
                have hk' : k ∉ (payFirstMatch tid (fun d => { d with
                    balance := round2 (d.balance - round2 (min t.balance acc.remaining))
                    payoffMonth :=
                      if round2 (d.balance - round2 (min t.balance acc.remaining)) ≤ simEps
                          ∧ d.payoffMonth = none
                      then some month else d.payoffMonth }) st).map keyOf := by
                  rw [hkeys]; exact hk
                rw [hrec.2.2.2.1 k hk']
                show jsObjGetD (jsObjSet acc.paid (jsIdToString tid) _) k
                  = jsObjGetD acc.paid k
                apply jsObjGetD_set_ne
                rw [hkeyt]
                intro hcontra
                exact hk (hcontra ▸ List.mem_map_of_mem keyOf htmem)
              · intro i hi
                have hi' : i < (payFirstMatch tid (fun d => { d with
                    balance := round2 (d.balance - round2 (min t.balance acc.remaining))
                    payoffMonth :=
                      if round2 (d.balance - round2 (min t.balance acc.remaining)) ≤ simEps
                          ∧ d.payoffMonth = none
                      then some month else d.payoffMonth }) st).length := by
                  rw [hpfm.1]; exact hi
                obtain ⟨r1, r2, r3, r4, r5⟩ := hrec.2.2.2.2 i hi'
                obtain ⟨e1, e2, e3, e4, e5⟩ := hpfm.2 i hi
                have hkeyeq : keyOf ((payFirstMatch tid (fun d => { d with
                    balance := round2 (d.balance - round2 (min t.balance acc.remaining))
                    payoffMonth :=
                      if round2 (d.balance - round2 (min t.balance acc.remaining)) ≤ simEps
                          ∧ d.payoffMonth = none
                      then some month else d.payoffMonth }) st).getD i dummyDebt)
                    = keyOf (st.getD i dummyDebt) := by
                  unfold keyOf
                  rw [e1]
                refine ⟨by rw [r1, e1], by rw [r2, e2], by rw [r3, e3], r4, ?_⟩
                rw [hkeyeq] at r5
                rw [r5]
                by_cases hkey : keyOf (st.getD i dummyDebt) = keyOf t
                · rw [if_pos hkey] at e5
                  obtain ⟨hfd, hteq⟩ := e5
                  have hacc2 : jsObjGetD (jsObjSet acc.paid (jsIdToString tid)
                        (round2 (jsObjGetD acc.paid (jsIdToString tid)
                          + round2 (min t.balance acc.remaining))))
                        (keyOf (st.getD i dummyDebt))
                      = jsObjGetD acc.paid (keyOf (st.getD i dummyDebt))
                        + round2 (min t.balance acc.remaining) := by
                    rw [hkey, ← hkeyt, jsObjGetD_set_self, hpv]
                  have hbal : ((payFirstMatch tid (fun d => { d with
                      balance := round2 (d.balance - round2 (min t.balance acc.remaining))
                      payoffMonth :=
                        if round2 (d.balance - round2 (min t.balance acc.remaining)) ≤ simEps
                            ∧ d.payoffMonth = none
                        then some month else d.payoffMonth }) st).getD i dummyDebt).balance
                      = t.balance - round2 (min t.balance acc.remaining) := by
                    rw [hfd, hteq]
                    exact round2_eq_self (isCent_sub htc hpayc)
                  have hbi : (st.getD i dummyDebt).balance = t.balance := by rw [hteq]
                  rw [hacc2, hbal, hbi]
                  ring
                · rw [if_neg hkey] at e5
                  have hne : keyOf (st.getD i dummyDebt) ≠ jsIdToString tid := by
                    rw [hkeyt]
                    exact hkey
                  have hacc2 : jsObjGetD (jsObjSet acc.paid (jsIdToString tid)
                        (round2 (jsObjGetD acc.paid (jsIdToString tid)
                          + round2 (min t.balance acc.remaining))))
                        (keyOf (st.getD i dummyDebt))
                      = jsObjGetD acc.paid (keyOf (st.getD i dummyDebt)) :=
                    jsObjGetD_set_ne _ _ _ _ hne
                  rw [hacc2, e5]

theorem keyOf_congr {a b : SimDebt} (h : a.id = b.id) : keyOf a = keyOf b := by
  unfold keyOf
  rw [h]

theorem estimateMinimumPayment_nonneg (type : String) (b a : ℚ) :
    0 ≤ estimateMinimumPayment type b a := by
  unfold estimateMinimumPayment
  dsimp only
  split_ifs <;> exact le_trans (by norm_num : (0:ℚ) ≤ 25) (le_max_left _ _)

theorem computeMonthlyMinimumDynamic_nonneg (type : String) (a : ℚ) (en : Bool)
    (fl bal : ℚ) : 0 ≤ computeMonthlyMinimumDynamic type a en fl bal := by
  unfold computeMonthlyMinimumDynamic
  dsimp only
  split_ifs
  · exact le_trans (estimateMinimumPayment_nonneg type bal a) (le_max_left _ _)
  · exact estimateMinimumPayment_nonneg type bal a

theorem dynamicMins_values_nonneg :
    ∀ (l : List SimDebt) (acc : JsObj), (∀ kv ∈ acc, 0 ≤ kv.2) →
    ∀ kv ∈ dynamicMins l acc, 0 ≤ kv.2 := by
  intro l
  induction l with
  | nil => intro acc h; exact h
  | cons d rest ih =>
    intro acc h
    by_cases hb : d.balance ≤ simEps
    · rw [dynamicMins, if_pos hb]
      exact ih _ h
    · rw [dynamicMins, if_neg hb]
      exact ih _ (jsObjSet_values_nonneg h
        (round2_nonneg (computeMonthlyMinimumDynamic_nonneg _ _ _ _ _)))

theorem initState_inv (debts : List ActiveDebt) : SimInv (initState debts) := by
  intro d hd
  obtain ⟨a, _, rfl⟩ := List.mem_map.mp hd
  refine ⟨round2_nonneg (le_max_left 0 _), isCent_round2 _, isCent_zero, ?_⟩
  show 0 ≤ max 0 a.interest_rate / 100 / 12
  positivity

/-- On a month that is not over budget, `monthBody`'s new state and ghost
paid map are the extra-loop stage's outputs. -/
theorem monthBody_decompose (strategy : String) (plan : Plan) (month : ℕ)
    (st : List SimDebt) (ti : ℚ) (hob : plan.overBudget = false) :
    (monthBody strategy plan month st ti).1 = (monthExtra strategy plan month st).1 ∧
    (monthBody strategy plan month st ti).2.2.2.2
      = (monthExtra strategy plan month st).2.paid := by
  unfold monthBody monthExtra monthRequired monthAccrued
  rw [hob]
  simp only [Bool.false_eq_true, if_false]
  exact ⟨trivial, trivial⟩

/-- One whole month of the loop: state length and id keys preserved, the
numeric invariant maintained, and per debt the ghost paid map records
exactly pre-month balance plus this month's accrued interest minus the
post-month balance. -/
theorem monthBody_state_spec (strategy : String) (plan : Plan) (month : ℕ)
    (st : List SimDebt) (ti : ℚ) (hInv : SimInv st) (hnd : (st.map keyOf).Nodup) :
    (monthBody strategy plan month st ti).1.length = st.length ∧
    SimInv (monthBody strategy plan month st ti).1 ∧
    (monthBody strategy plan month st ti).1.map keyOf = st.map keyOf ∧
    (∀ i, i < st.length →
      ((monthBody strategy plan month st ti).1.getD i dummyDebt).id
          = (st.getD i dummyDebt).id ∧
      ((monthBody strategy plan month st ti).1.getD i dummyDebt).name
          = (st.getD i dummyDebt).name ∧
      (st.getD i dummyDebt).interestPaid
        ≤ ((monthBody strategy plan month st ti).1.getD i dummyDebt).interestPaid ∧
      0 ≤ ((monthBody strategy plan month st ti).1.getD i dummyDebt).balance ∧
      jsObjGetD (monthBody strategy plan month st ti).2.2.2.2
          (keyOf (st.getD i dummyDebt))
        = (st.getD i dummyDebt).balance
          + (((monthBody strategy plan month st ti).1.getD i dummyDebt).interestPaid
             - (st.getD i dummyDebt).interestPaid)
          - ((monthBody strategy plan month st ti).1.getD i dummyDebt).balance) := by
  cases hob : plan.overBudget with
  | true =>
    rw [monthBody_overBudget strategy plan month st ti hob]
    refine ⟨rfl, hInv, rfl, ?_⟩
    intro i hi
    refine ⟨rfl, rfl, le_refl _, (hInv _ (getD_mem hi)).1, ?_⟩
    show jsObjGetD [] (keyOf (st.getD i dummyDebt))
      = (st.getD i dummyDebt).balance
        + ((st.getD i dummyDebt).interestPaid - (st.getD i dummyDebt).interestPaid)
        - (st.getD i dummyDebt).balance
    rw [show jsObjGetD ([] : JsObj) (keyOf (st.getD i dummyDebt)) = 0 from rfl]
    ring
  | false =>
    have hacc := accrue_spec st 0 hInv
    rw [show accrue st 0 = monthAccrued st from rfl] at hacc
    have hkeys1 : (monthAccrued st).1.map keyOf = st.map keyOf :=
      map_keyOf_eq_of_ids hacc.1 fun i hi => (hacc.2.2 i hi).1
    have hmins : ∀ kv ∈ dynamicMins (monthAccrued st).1 [], 0 ≤ kv.2 :=
      dynamicMins_values_nonneg _ _ fun kv hkv => absurd hkv (List.not_mem_nil kv)
    have hreq := requiredPhase_spec (dynamicMins (monthAccrued st).1 [])
      plan.requiredByDebtId month hmins (monthAccrued st).1
      { remaining := round2 (max 0 (round2 plan.monthlyPayment)), requiredSum := 0,
        minPaid := 0, directedPaid := 0, paid := [] }
      hacc.2.1 (round2_nonneg (le_max_left 0 _)) (isCent_round2 _)
      (fun kv hkv => absurd hkv (List.not_mem_nil kv)) (by rw [hkeys1]; exact hnd)
    rw [show requiredPhase (dynamicMins (monthAccrued st).1 []) plan.requiredByDebtId
        month (monthAccrued st).1
        { remaining := round2 (max 0 (round2 plan.monthlyPayment)), requiredSum := 0,
          minPaid := 0, directedPaid := 0, paid := [] }
        = monthRequired plan month st from rfl] at hreq
    dsimp only at hreq
    have hkeys2 : (monthRequired plan month st).1.map keyOf
        = (monthAccrued st).1.map keyOf :=
      map_keyOf_eq_of_ids hreq.1 fun i hi => (hreq.2.2.2.2.2 i hi).1
    have hext := extraLoop_spec strategy month
      ((monthRequired plan month st).1.length + 1) (monthRequired plan month st).1
      { remaining := (monthRequired plan month st).2.remaining, extraPaid := 0,
        extraBy := [], paid := (monthRequired plan month st).2.paid }
      hreq.2.1 hreq.2.2.1.1 hreq.2.2.1.2 hreq.2.2.2.1
      (by rw [hkeys2, hkeys1]; exact hnd)
    rw [show extraLoop strategy month ((monthRequired plan month st).1.length + 1)
        (monthRequired plan month st).1
        { remaining := (monthRequired plan month st).2.remaining, extraPaid := 0,
          extraBy := [], paid := (monthRequired plan month st).2.paid }
        = monthExtra strategy plan month st from rfl] at hext
    dsimp only at hext
    rw [(monthBody_decompose strategy plan month st ti hob).1,
        (monthBody_decompose strategy plan month st ti hob).2]
    refine ⟨?_, hext.2.1, ?_, ?_⟩
    · rw [hext.1, hreq.1, hacc.1]
    · rw [map_keyOf_eq_of_ids hext.1 fun i hi => (hext.2.2.2.2 i hi).1, hkeys2, hkeys1]
    · intro i hi
      have hi1 : i < (monthAccrued st).1.length := by rw [hacc.1]; exact hi
      have hi2 : i < (monthRequired plan month st).1.length := by rw [hreq.1]; exact hi1
      have ha := hacc.2.2 i hi
      have hq := hreq.2.2.2.2.2 i hi1
      have he := hext.2.2.2.2 i hi2
      have hk1 : keyOf ((monthAccrued st).1.getD i dummyDebt)
          = keyOf (st.getD i dummyDebt) := keyOf_congr ha.1
      have hk2 : keyOf ((monthRequired plan month st).1.getD i dummyDebt)
          = keyOf ((monthAccrued st).1.getD i dummyDebt) := keyOf_congr hq.1
      refine ⟨?_, ?_, ?_, he.2.2.2.1, ?_⟩
      · rw [he.1, hq.1]
        exact ha.1
      · rw [he.2.1, hq.2.1]
        exact ha.2.1
      · rw [he.2.2.1, hq.2.2.1]
        exact ha.2.2.1
      · have he5 := he.2.2.2.2
        rw [hk2, hk1] at he5
        have hq5 := hq.2.2.2.2
        rw [hk1] at hq5
        rw [he5, hq5]
        rw [show jsObjGetD ([] : JsObj) (keyOf (st.getD i dummyDebt)) = 0 from rfl]
        rw [ha.2.2.2, he.2.2.1, hq.2.2.1]
        ring

/-- Along a whole run, every state satisfies the numeric invariant and
keeps the initial id keys. -/
theorem simStateAt_inv (strategy : String) (debts : List ActiveDebt)
    (planFn : ℕ → Plan) (hnd : ((initState debts).map keyOf).Nodup) : ∀ n,
    SimInv (simStateAt strategy debts planFn n).state ∧
    (simStateAt strategy debts planFn n).state.map keyOf
      = (initState debts).map keyOf := by
  intro n
  induction n with
  | zero => exact ⟨initState_inv debts, rfl⟩
  | succ n ih =>
    rw [simStateAt]
    dsimp only
    by_cases hh : (simStateAt strategy debts planFn n).running = false
        ∨ MAX_MONTHS < (simStateAt strategy debts planFn n).month
        ∨ allPaidB (simStateAt strategy debts planFn n).state = true
    · rw [if_pos hh]
      exact ih
    · rw [if_neg hh]
      have hmb := monthBody_state_spec strategy
        (planFn (simStateAt strategy debts planFn n).month)
        (simStateAt strategy debts planFn n).month
        (simStateAt strategy debts planFn n).state
        (simStateAt strategy debts planFn n).totalInterest
        ih.1 (by rw [ih.2]; exact hnd)
      exact ⟨hmb.2.1, hmb.2.2.1.trans ih.2⟩

theorem mem_jsEntries_of_mem {o : JsObj} {kv : String × ℚ} (h : kv ∈ o) :
    kv ∈ jsEntries o := by
  unfold jsEntries
  by_cases hk : isIndexKey kv.1
  · refine List.mem_append.mpr (Or.inl ?_)
    exact (List.perm_insertionSort _ _).mem_iff.mpr (List.mem_filter.mpr ⟨h, hk⟩)
  · refine List.mem_append.mpr (Or.inr ?_)
    refine List.mem_filter.mpr ⟨h, ?_⟩
    simpa using hk

theorem nodup_getElem_inj {α : Type} {l : List α} (h : l.Nodup) {i j : ℕ}
    (hi : i < l.length) (hj : j < l.length) (heq : l[i] = l[j]) : i = j :=
  congrArg Fin.val ((List.Nodup.get_inj_iff h).mp heq)

theorem requiredStep_id (mins : JsObj) (planReq : Option JsObj) (month : ℕ)
    (d : SimDebt) (acc : ReqAcc) :
    (requiredStep mins planReq month d acc).1.id = d.id := by
  unfold requiredStep
  dsimp only
  by_cases hp : (0:ℚ) < round2 (min
      (intendedPayment planReq (jsObjGetD mins (jsIdToString d.id)) d)
      (min d.balance acc.remaining))
  · rw [if_pos hp]
  · rw [if_neg hp]

theorem requiredStep_paid_keys (mins : JsObj) (planReq : Option JsObj) (month : ℕ)
    (d : SimDebt) (acc : ReqAcc) :
    ∀ kv ∈ (requiredStep mins planReq month d acc).2.paid,
      kv ∈ acc.paid ∨ kv.1 = jsIdToString d.id := by
  intro kv h
  unfold requiredStep at h
  dsimp only at h
  by_cases hp : (0:ℚ) < round2 (min
      (intendedPayment planReq (jsObjGetD mins (jsIdToString d.id)) d)
      (min d.balance acc.remaining))
  · rw [if_pos hp] at h
    rcases mem_jsObjSet h with rfl | h'
    · exact Or.inr rfl
    · exact Or.inl h'
  · rw [if_neg hp] at h
    exact Or.inl h

theorem accrue_keys : ∀ (st : List SimDebt) (t : ℚ),
    (accrue st t).1.map keyOf = st.map keyOf := by
  intro st
  induction st with
  | nil => intro t; rfl
  | cons d rest ih =>
    intro t
    by_cases hb : d.balance ≤ simEps
    · have heq : accrue (d :: rest) t = (d :: (accrue rest t).1, (accrue rest t).2) := by
        rw [accrue, if_pos hb]
      rw [heq, List.map_cons, List.map_cons, ih]
    · have heq : accrue (d :: rest) t
          = ({ d with
                balance := round2 (d.balance + round2 (d.balance * d.r))
                interestPaid := round2 (d.interestPaid + round2 (d.balance * d.r)) }
              :: (accrue rest (round2 (t + round2 (d.balance * d.r)))).1,
             (accrue rest (round2 (t + round2 (d.balance * d.r)))).2) := by
        rw [accrue, if_neg hb]
      rw [heq, List.map_cons, List.map_cons, ih,
        keyOf_congr (show ({ d with
            balance := round2 (d.balance + round2 (d.balance * d.r))
            interestPaid := round2 (d.interestPaid + round2 (d.balance * d.r)) }
          : SimDebt).id = d.id from rfl)]

theorem requiredPhase_keys (mins : JsObj) (planReq : Option JsObj) (month : ℕ) :
    ∀ (l : List SimDebt) (acc : ReqAcc),
    (requiredPhase mins planReq month l acc).1.map keyOf = l.map keyOf := by
  intro l
  induction l with
  | nil => intro acc; rfl
  | cons d rest ih =>
    intro acc
    by_cases hb : d.balance ≤ simEps
    · have heq : requiredPhase mins planReq month (d :: rest) acc
          = (d :: (requiredPhase mins planReq month rest acc).1,
             (requiredPhase mins planReq month rest acc).2) := by
        rw [requiredPhase, if_pos hb]
      rw [heq, List.map_cons, List.map_cons, ih]
    · have heq : requiredPhase mins planReq month (d :: rest) acc
          = ((requiredStep mins planReq month d acc).1
              :: (requiredPhase mins planReq month rest
                  (requiredStep mins planReq month d acc).2).1,
             (requiredPhase mins planReq month rest
                (requiredStep mins planReq month d acc).2).2) := by
        rw [requiredPhase, if_neg hb]
      rw [heq, List.map_cons, List.map_cons, ih,
        keyOf_congr (requiredStep_id mins planReq month d acc)]

theorem requiredPhase_paid_keys (mins : JsObj) (planReq : Option JsObj) (month : ℕ) :
    ∀ (l : List SimDebt) (acc : ReqAcc),
    ∀ kv ∈ (requiredPhase mins planReq month l acc).2.paid,
      kv ∈ acc.paid ∨ kv.1 ∈ l.map keyOf := by
  intro l
  induction l with
  | nil => intro acc kv h; exact Or.inl h
  | cons d rest ih =>
    intro acc kv h
    by_cases hb : d.balance ≤ simEps
    · have heq : requiredPhase mins planReq month (d :: rest) acc
          = (d :: (requiredPhase mins planReq month rest acc).1,
             (requiredPhase mins planReq month rest acc).2) := by
        rw [requiredPhase, if_pos hb]
      rw [heq] at h
      rcases ih acc kv h with h' | h'
      · exact Or.inl h'
      · rw [List.map_cons]
        exact Or.inr (List.mem_cons_of_mem _ h')
    · have heq : requiredPhase mins planReq month (d :: rest) acc
          = ((requiredStep mins planReq month d acc).1
              :: (requiredPhase mins planReq month rest
                  (requiredStep mins planReq month d acc).2).1,
             (requiredPhase mins planReq month rest
                (requiredStep mins planReq month d acc).2).2) := by
        rw [requiredPhase, if_neg hb]
      rw [heq] at h
      rcases ih _ kv h with h' | h'
      · rcases requiredStep_paid_keys mins planReq month d acc kv h' with h'' | h''
        · exact Or.inl h''
        · rw [List.map_cons]
          exact Or.inr (List.mem_cons.mpr (Or.inl h''))
      · rw [List.map_cons]
        exact Or.inr (List.mem_cons_of_mem _ h')

theorem map_keyOf_payFirstMatch (tid : JsId) (f : SimDebt → SimDebt)
    (hf : ∀ d, (f d).id = d.id) :
    ∀ st : List SimDebt, (payFirstMatch tid f st).map keyOf = st.map keyOf := by
  intro st
  induction st with
  | nil => rfl
  | cons d rest ih =>
    rw [payFirstMatch]
    by_cases hd : jsEq d.id tid = true
    · rw [if_pos hd]
      simp only [List.map_cons]
      rw [keyOf_congr (hf d)]
    · rw [if_neg hd]
      simp only [List.map_cons]
      rw [ih]

theorem extraLoop_keys (strategy : String) (month : ℕ) :
    ∀ (fuel : ℕ) (st : List SimDebt) (acc : ExtraAcc),
    (extraLoop strategy month fuel st acc).1.map keyOf = st.map keyOf := by
  intro fuel
  induction fuel with
  | zero => intro st acc; rfl
  | succ fuel ih =>
    intro st acc
    rw [extraLoop]
    by_cases hcond : simEps < acc.remaining ∧ allPaidB st = false
    case neg => rw [if_neg hcond]
    case pos =>
      rw [if_pos hcond]
      cases hpick : pickTargetId strategy st with
      | none => rfl
      | some tid =>
        dsimp only
        cases hfind : st.find? fun x => jsEq x.id tid with
        | none => rfl
        | some t =>
          dsimp only
          by_cases htb : t.balance ≤ simEps
          · rw [if_pos htb]
          · rw [if_neg htb]
            by_cases hpp : round2 (min t.balance acc.remaining) ≤ 0
            · rw [if_pos hpp]
            · rw [if_neg hpp]
              rw [ih]
              exact map_keyOf_payFirstMatch tid (fun d =>
                { d with
                  balance := round2 (d.balance - round2 (min t.balance acc.remaining))
                  payoffMonth :=
                    if round2 (d.balance - round2 (min t.balance acc.remaining)) ≤ simEps
                        ∧ d.payoffMonth = none
                    then some month else d.payoffMonth })
                (fun d => rfl) st

theorem extraLoop_paid_keys (strategy : String) (month : ℕ) :
    ∀ (fuel : ℕ) (st : List SimDebt) (acc : ExtraAcc),
    ∀ kv ∈ (extraLoop strategy month fuel st acc).2.paid,
      kv ∈ acc.paid ∨ kv.1 ∈ st.map keyOf := by
  intro fuel
  induction fuel with
  | zero => intro st acc kv h; exact Or.inl h
  | succ fuel ih =>
    intro st acc kv h
    rw [extraLoop] at h
    by_cases hcond : simEps < acc.remaining ∧ allPaidB st = false
    case neg =>
      rw [if_neg hcond] at h
      exact Or.inl h
    case pos =>
      rw [if_pos hcond] at h
      cases hpick : pickTargetId strategy st with
      | none =>
        rw [hpick] at h
        exact Or.inl h
      | some tid =>
        rw [hpick] at h
        dsimp only at h
        cases hfind : st.find? fun x => jsEq x.id tid with
        | none =>
          rw [hfind] at h
          exact Or.inl h
        | some t =>
          rw [hfind] at h
          dsimp only at h
          by_cases htb : t.balance ≤ simEps
          · rw [if_pos htb] at h
            exact Or.inl h
          · rw [if_neg htb] at h
            by_cases hpp : round2 (min t.balance acc.remaining) ≤ 0
            · rw [if_pos hpp] at h
              exact Or.inl h
            · rw [if_neg hpp] at h
              rcases ih _ _ kv h with h' | h'
              · rcases mem_jsObjSet h' with rfl | h''
                · right
                  have htmem : t ∈ st := List.mem_of_find?_eq_some hfind
                  have hpt := List.find?_some hfind
                  have hts : jsIdToString t.id = jsIdToString tid := jsIdToString_of_jsEq hpt
                  show jsIdToString tid ∈ st.map keyOf
                  rw [← hts]
                  exact List.mem_map_of_mem keyOf htmem
                · exact Or.inl h''
              · right
                rwa [map_keyOf_payFirstMatch tid (fun d =>
                { d with
                  balance := round2 (d.balance - round2 (min t.balance acc.remaining))
                  payoffMonth :=
                    if round2 (d.balance - round2 (min t.balance acc.remaining)) ≤ simEps
                        ∧ d.payoffMonth = none
                    then some month else d.payoffMonth })
                  (fun d => rfl) st] at h'

/-- Every key of the month's ghost paid map is the id key of one of the
month's input debts. -/
theorem monthExtra_paid_keys (strategy : String) (plan : Plan) (month : ℕ)
    (st : List SimDebt) {kv : String × ℚ}
    (h : kv ∈ (monthExtra strategy plan month st).2.paid) : kv.1 ∈ st.map keyOf := by
  have hkeysS1 : (monthAccrued st).1.map keyOf = st.map keyOf := accrue_keys st 0
  have hkeysQ : (monthRequired plan month st).1.map keyOf
      = (monthAccrued st).1.map keyOf :=
    requiredPhase_keys _ _ _ _ _
  rcases extraLoop_paid_keys strategy month _ _ _ kv h with h1 | h1
  · rcases requiredPhase_paid_keys _ _ _ _ _ kv h1 with h2 | h2
    · exact absurd h2 (List.not_mem_nil _)
    · rw [hkeysS1] at h2
      exact h2
  · rw [hkeysQ, hkeysS1] at h1
    exact h1

theorem target_foldl_spec :
    ∀ (l : List (String × ℚ)) (a : Option JsId × ℚ),
    (l.foldl (fun acc kv =>
        if acc.2 < kv.2 then (some (jsNumberOfString kv.1), kv.2) else acc) a = a
      ∧ ∀ kv ∈ l, kv.2 ≤ a.2) ∨
    (∃ pre kv post, l = pre ++ kv :: post ∧ a.2 < kv.2
      ∧ (∀ kv' ∈ pre, kv'.2 < kv.2) ∧ (∀ kv' ∈ post, kv'.2 ≤ kv.2)
      ∧ l.foldl (fun acc kv =>
          if acc.2 < kv.2 then (some (jsNumberOfString kv.1), kv.2) else acc) a
        = (some (jsNumberOfString kv.1), kv.2)) := by
  intro l
  induction l with
  | nil =>
    intro a
    exact Or.inl ⟨rfl, fun kv h => absurd h (List.not_mem_nil kv)⟩
  | cons kv0 l' ih =>
    intro a
    rw [List.foldl_cons]
    by_cases hlt : a.2 < kv0.2
    · rw [if_pos hlt]
      rcases ih (some (jsNumberOfString kv0.1), kv0.2) with ⟨heq, hle⟩ |
        ⟨pre, kv, post, hsplit, hgt, hpre, hpost, heq⟩
      · right
        exact ⟨[], kv0, l', rfl, hlt, fun kv' h => absurd h (List.not_mem_nil kv'),
          fun kv' h => hle kv' h, heq⟩
      · right
        refine ⟨kv0 :: pre, kv, post, by rw [hsplit]; rfl, lt_trans hlt hgt, ?_, hpost, heq⟩
        intro kv' h
        rcases List.mem_cons.mp h with rfl | h'
        · exact hgt
        · exact hpre kv' h'
    · rw [if_neg hlt]
      rcases ih a with ⟨heq, hle⟩ | ⟨pre, kv, post, hsplit, hgt, hpre, hpost, heq⟩
      · left
        refine ⟨heq, ?_⟩
        intro kv' h
        rcases List.mem_cons.mp h with rfl | h'
        · exact le_of_not_lt hlt
        · exact hle kv' h'
      · right
        refine ⟨kv0 :: pre, kv, post, by rw [hsplit]; rfl, hgt, ?_, hpost, heq⟩
        intro kv' h
        rcases List.mem_cons.mp h with rfl | h'
        · exact lt_of_le_of_lt (le_of_not_lt hlt) hgt
        · exact hpre kv' h'

/-- When some entry of the paid map is positive, `computeActualTarget`
returns the `Number()`-coerced key and the value of the map's first
maximal entry. -/
theorem computeActualTarget_pos {paid : JsObj} {kv0 : String × ℚ}
    (hmem : kv0 ∈ jsEntries paid) (hpos : 0 < kv0.2) :
    ∃ k v, (k, v) ∈ jsEntries paid ∧ FirstMax (jsEntries paid) k v ∧ 0 < v ∧
      computeActualTarget paid = (some (jsNumberOfString k), v) := by
  rcases target_foldl_spec (jsEntries paid) (none, 0) with ⟨heq, hle⟩ |
    ⟨pre, kv, post, hsplit, hgt, hpre, hpost, heq⟩
  · exact absurd (hle kv0 hmem) (not_le.mpr hpos)
  · refine ⟨kv.1, kv.2, ?_, ⟨pre, post, ?_, hpre, hpost⟩, hgt, ?_⟩
    · rw [hsplit]
      exact List.mem_append.mpr (Or.inr (List.mem_cons.mpr (Or.inl rfl)))
    · rw [hsplit]
    · show (jsEntries paid).foldl (fun acc kv =>
          if acc.2 < kv.2 then (some (jsNumberOfString kv.1), kv.2) else acc) (none, 0)
        = (some (jsNumberOfString kv.1), kv.2)
      exact heq

/-- When the month's actual target computes to `(some tid, v)`, the
entry's target fields are `tid` and the name of the first post-loop debt
whose id is `===` to `tid`. -/
theorem monthBody_target_of (strategy : String) (plan : Plan) (month : ℕ)
    (st : List SimDebt) (ti : ℚ) (hob : plan.overBudget = false)
    (tid : JsId) (v : ℚ)
    (htgt : computeActualTarget (monthExtra strategy plan month st).2.paid
      = (some tid, v)) :
    (monthBody strategy plan month st ti).2.2.1.targetDebtId = some tid ∧
    (monthBody strategy plan month st ti).2.2.1.targetDebtName
      = ((monthExtra strategy plan month st).1.find?
          fun (x : SimDebt) => jsEq x.id tid).map
          (fun (d : SimDebt) => d.name) := by
  unfold monthExtra monthRequired monthAccrued at htgt
  unfold monthBody monthExtra monthRequired monthAccrued
  rw [hob]
  simp only [Bool.false_eq_true, if_false]
  rw [htgt]
  exact ⟨rfl, rfl⟩

/-! # Claims -/

/-- **C2.** For a `loc` (line-of-credit) debt with balance `b ≥ 0` and
rate `a ≥ 0`, the estimator returns `max 25 (b·(a/100/12))` (universal
floor versus interest-only); any type that is not `credit_card`, `loc` or
`loan` falls through to the default heuristic
`max 25 (interestOnly + 0.005·b) (0.015·b)` — no case is missing. -/
theorem c2_loc_and_unrecognized_estimator (b a : ℚ) (hb : 0 ≤ b) (ha : 0 ≤ a)
    (t : String) (ht1 : t ≠ "credit_card") (ht2 : t ≠ "loc") (ht3 : t ≠ "loan") :
    estimateMinimumPayment "loc" b a = max 25 (b * (a / 100 / 12)) ∧
    estimateMinimumPayment t b a =
      max 25 (max (b * (a / 100 / 12) + (5/1000) * b) ((15/1000) * b)) := by
  unfold estimateMinimumPayment
  rw [max_eq_right hb, max_eq_right ha]
  constructor
  · rw [if_neg (by decide), if_pos rfl]
  · rw [if_neg ht1, if_neg ht2, if_neg ht3]

/-- Witness for C2 at `b = 1000`, `a = 12`, `t = "personal"`. -/
theorem c2_loc_and_unrecognized_estimator_witness :
    estimateMinimumPayment "loc" 1000 12 = max 25 (1000 * (12 / 100 / 12)) ∧
    estimateMinimumPayment "personal" 1000 12 =
      max 25 (max (1000 * (12 / 100 / 12) + (5/1000) * 1000) ((15/1000) * 1000)) :=
  c2_loc_and_unrecognized_estimator 1000 12 (by norm_num) (by norm_num)
    "personal" (by decide) (by decide) (by decide)

/-- **C1, counterexample.** A credit-card debt (balance 4000, APR 0) has
estimated minimum 80; enabling the floor override at 30 makes
`debtsWithMin` record `minimum_payment = 30`, and the schedule resolver
then requires only 30 for it — strictly below the estimate, refuting
"the effective minimum used downstream is `max(estimate, override)`". -/
theorem c1_override_counterexample :
    estimateMinimumPayment exOverrideDebt.type exOverrideDebt.balance
        exOverrideDebt.interest_rate = 80 ∧
    (annotateWithMin exOverrideDebt).minimum_payment = 30 ∧
    jsObjGet (computeScheduleMonthRequiredPayments
        [(annotateWithMin exOverrideDebt).toResolverDebt]
        { month := 1, amount := 1000, allocations := [] } 1000).requiredByDebtId "d1"
      = some 30 ∧
    (30 : ℚ) < 80 := by
  refine ⟨?_, ?_, ?_, by norm_num⟩
  · norm_num [exOverrideDebt, estimateMinimumPayment]
  · norm_num [annotateWithMin, exOverrideDebt, estimateMinimumPayment]
  · norm_num [computeScheduleMonthRequiredPayments, resolverLoop, resolverRequired,
      annotateWithMin, exOverrideDebt, estimateMinimumPayment,
      AnnotatedDebt.toResolverDebt, jsObjGet, jsObjGetD, jsObjSet, jsIdToString,
      round2, List.find?]

/-- **C1, amended.** The simulator's dynamic minimum with the floor
enabled is `max(estimate, override)` and hence never below the estimate;
but `debtsWithMin` sets `minimum_payment` to the (clamped) override amount
alone when the override is enabled, so the schedule resolver's minimum can
drop below the estimate. -/
theorem c1_override_amended :
    (∀ (type : String) (rate floorAmt bal : ℚ),
      computeMonthlyMinimumDynamic type rate true floorAmt bal =
        max (estimateMinimumPayment type bal rate) floorAmt ∧
      estimateMinimumPayment type bal rate ≤
        computeMonthlyMinimumDynamic type rate true floorAmt bal) ∧
    (∀ d : Debt, d.min_override_enabled = true →
      (annotateWithMin d).minimum_payment = max 0 d.min_override_amount) := by
  constructor
  · intro type rate floorAmt bal
    refine ⟨rfl, ?_⟩
    unfold computeMonthlyMinimumDynamic
    simp only [if_pos rfl]
    exact le_max_left _ _
  · intro d hd
    unfold annotateWithMin
    simp [hd]

/-- Witness for C1's amended statement at the concrete override debt. -/
theorem c1_override_amended_witness :
    (annotateWithMin exOverrideDebt).minimum_payment
      = max 0 exOverrideDebt.min_override_amount :=
  c1_override_amended.2 exOverrideDebt rfl

/-- **C6.** For every debt list with resolved non-negative minimums,
schedule row with non-negative allocations and whole-cent non-negative
funding amount, the resolver requires
`round2(max(minimumPayment, allocation or 0))` per positive-balance debt,
reports `requiredSum` as the rounded running sum of those values,
`overBudget` exactly when `requiredSum` exceeds the amount by more than
the `1e-6` epsilon, and `unassigned = max(0, amount - requiredSum)`. -/
theorem c6_schedule_resolver (debts : List ResolverDebt) (row : ScheduleRow) (amount : ℚ)
    (hamt : 0 ≤ amount) (hcent : IsCent amount)
    (hmin : ∀ d ∈ debts, 0 ≤ d.minimum_payment.getD 0)
    (halloc : ∀ kv ∈ row.allocations, 0 ≤ kv.2)
    (hids : (debts.map fun e => jsIdToString e.id).Nodup) :
    (∀ d ∈ debts, 0 < d.balance →
      jsObjGet (computeScheduleMonthRequiredPayments debts row amount).requiredByDebtId
          (jsIdToString d.id)
        = some (round2 (max (d.minimum_payment.getD 0)
            (jsObjGetD row.allocations (jsIdToString d.id))))) ∧
    (computeScheduleMonthRequiredPayments debts row amount).requiredSum
      = (debts.filter fun d => 0 < d.balance).foldl
          (fun s d => round2 (s + round2 (max (d.minimum_payment.getD 0)
            (jsObjGetD row.allocations (jsIdToString d.id))))) 0 ∧
    ((computeScheduleMonthRequiredPayments debts row amount).overBudget = true ↔
      1/1000000 <
        (computeScheduleMonthRequiredPayments debts row amount).requiredSum - amount) ∧
    (computeScheduleMonthRequiredPayments debts row amount).unassigned
      = max 0 (amount
          - (computeScheduleMonthRequiredPayments debts row amount).requiredSum) := by
  have hmPay : max 0 (round2 amount) = amount := by
    rw [round2_eq_self hcent, max_eq_right hamt]
  have hreq : ∀ d ∈ debts, resolverRequired row.allocations d
      = round2 (max (d.minimum_payment.getD 0)
          (jsObjGetD row.allocations (jsIdToString d.id))) := by
    intro d hd
    unfold resolverRequired
    rw [max_eq_right (hmin d hd),
      max_eq_right (jsObjGetD_nonneg _ _ halloc)]
  have hsum : IsCent (computeScheduleMonthRequiredPayments debts row amount).requiredSum :=
    resolverLoop_sum_cent _ _ _ _ isCent_zero
  refine ⟨?_, ?_, ?_, ?_⟩
  · intro d hd hbal
    show jsObjGet (resolverLoop row.allocations debts [] 0).1 (jsIdToString d.id) = _
    rw [resolverLoop_get _ _ _ _ d hd hbal hids, hreq d hd]
  · show (resolverLoop row.allocations debts [] 0).2 = _
    rw [resolverLoop_sum]
    apply List.foldl_ext
    intro s d hd
    rw [hreq d (List.mem_of_mem_filter hd)]
  · show decide ((resolverLoop row.allocations debts [] 0).2
        - max 0 (round2 amount) > 1/1000000) = true ↔ _
    rw [hmPay, decide_eq_true_eq]
    exact gt_iff_lt
  · show round2 (max 0 (max 0 (round2 amount)
        - (resolverLoop row.allocations debts [] 0).2)) = _
    rw [hmPay]
    exact round2_eq_self (isCent_max isCent_zero (isCent_sub hcent hsum))

/-- Witness for C6: one debt with minimum 25, an allocation of 40 and a
funding amount of 500. -/
theorem c6_schedule_resolver_witness :
    (∀ d ∈ [({ id := .str "a", balance := 100, minimum_payment := some 25 } : ResolverDebt)],
      0 < d.balance →
      jsObjGet (computeScheduleMonthRequiredPayments
          [{ id := .str "a", balance := 100, minimum_payment := some 25 }]
          { month := 1, amount := 500, allocations := [("a", 40)] } 500).requiredByDebtId
          (jsIdToString d.id)
        = some (round2 (max (d.minimum_payment.getD 0)
            (jsObjGetD [("a", 40)] (jsIdToString d.id))))) ∧
    (computeScheduleMonthRequiredPayments
        [{ id := .str "a", balance := 100, minimum_payment := some 25 }]
        { month := 1, amount := 500, allocations := [("a", 40)] } 500).requiredSum
      = ([({ id := .str "a", balance := 100, minimum_payment := some 25 } : ResolverDebt)].filter
          fun d => 0 < d.balance).foldl
          (fun s d => round2 (s + round2 (max (d.minimum_payment.getD 0)
            (jsObjGetD [("a", 40)] (jsIdToString d.id))))) 0 ∧
    ((computeScheduleMonthRequiredPayments
        [{ id := .str "a", balance := 100, minimum_payment := some 25 }]
        { month := 1, amount := 500, allocations := [("a", 40)] } 500).overBudget = true ↔
      1/1000000 < (computeScheduleMonthRequiredPayments
        [{ id := .str "a", balance := 100, minimum_payment := some 25 }]
        { month := 1, amount := 500, allocations := [("a", 40)] } 500).requiredSum - 500) ∧
    (computeScheduleMonthRequiredPayments
        [{ id := .str "a", balance := 100, minimum_payment := some 25 }]
        { month := 1, amount := 500, allocations := [("a", 40)] } 500).unassigned
      = max 0 (500 - (computeScheduleMonthRequiredPayments
          [{ id := .str "a", balance := 100, minimum_payment := some 25 }]
          { month := 1, amount := 500, allocations := [("a", 40)] } 500).requiredSum) :=
  c6_schedule_resolver _ _ 500 (by norm_num) ⟨50000, by norm_num⟩
    (by intro d hd; simp at hd; subst hd; norm_num)
    (by intro kv hkv; simp at hkv; subst hkv; norm_num)
    (by simp)

/-- **C7.** Over the currently active debts (balance above the epsilon),
the snowball pick is a debt with the smallest balance, ties broken toward
the higher APR; the avalanche pick has the highest APR, ties broken
toward the smaller balance. -/
theorem c7_target_selection (state : List SimDebt) :
    (∀ tid, pickTargetId "snowball" state = some tid →
      ∃ d ∈ state.filter fun e => simEps < e.balance, d.id = tid ∧
        ∀ e ∈ state.filter fun e => simEps < e.balance,
          d.balance < e.balance ∨ (d.balance = e.balance ∧ e.apr ≤ d.apr)) ∧
    (∀ tid, pickTargetId "avalanche" state = some tid →
      ∃ d ∈ state.filter fun e => simEps < e.balance, d.id = tid ∧
        ∀ e ∈ state.filter fun e => simEps < e.balance,
          e.apr < d.apr ∨ (d.apr = e.apr ∧ d.balance ≤ e.balance)) := by
  constructor
  · intro tid htid
    unfold pickTargetId at htid
    rw [if_pos rfl] at htid
    rcases Option.map_eq_some'.mp htid with ⟨d, hd, rfl⟩
    refine ⟨d, ?_, rfl, ?_⟩
    · rcases pickBest_step_mem snowballLt _ _ _ hd with h | h
      · cases h
      · exact h
    · intro e he
      have hmin := (pickBest_step_min snowballLt (fun h1 h2 => snowballLt_trans h1 h2)
        (fun h1 h2 => snowballLt_neg_trans h1 h2)
        (fun a => by unfold snowballLt; push_neg; exact ⟨le_refl _, fun _ => le_refl _⟩)
        _ _ _ hd).1 e he
      unfold snowballLt at hmin
      push_neg at hmin
      rcases lt_or_eq_of_le hmin.1 with h | h
      · exact Or.inl h
      · exact Or.inr ⟨h, hmin.2 h.symm⟩
  · intro tid htid
    unfold pickTargetId at htid
    rw [if_neg (by decide)] at htid
    rcases Option.map_eq_some'.mp htid with ⟨d, hd, rfl⟩
    refine ⟨d, ?_, rfl, ?_⟩
    · rcases pickBest_step_mem avalancheLt _ _ _ hd with h | h
      · cases h
      · exact h
    · intro e he
      have hmin := (pickBest_step_min avalancheLt (fun h1 h2 => avalancheLt_trans h1 h2)
        (fun h1 h2 => avalancheLt_neg_trans h1 h2)
        (fun a => by unfold avalancheLt; push_neg; exact ⟨le_refl _, fun _ => le_refl _⟩)
        _ _ _ hd).1 e he
      unfold avalancheLt at hmin
      push_neg at hmin
      rcases lt_or_eq_of_le hmin.1 with h | h
      · exact Or.inl h
      · exact Or.inr ⟨h.symm, hmin.2 h⟩

/-- **C5.** When a month's plan reports over budget (and the run is still
live), the simulator appends exactly one terminal invalid entry — zero
interest, zero payments, no target — leaves every balance unchanged and
halts: the entry is the last of the run's timeline. -/
theorem c5_overbudget_halts (strategy : String) (planFn : ℕ → Plan) (fuel month : ℕ)
    (state : List SimDebt) (ti : ℚ) (acc : List TimelineEntry)
    (hlive : allPaidB state = false) (hob : (planFn month).overBudget = true) :
    simLoop strategy planFn (fuel + 1) month state ti acc
      = (state, ti, acc.reverse ++ [overBudgetEntry month (planFn month)
          (max 0 (round2 (planFn month).monthlyPayment)) state ti]) ∧
    (overBudgetEntry month (planFn month)
        (max 0 (round2 (planFn month).monthlyPayment)) state ti).invalid = true ∧
    (overBudgetEntry month (planFn month)
        (max 0 (round2 (planFn month).monthlyPayment)) state ti).interestThisMonth = 0 ∧
    (overBudgetEntry month (planFn month)
        (max 0 (round2 (planFn month).monthlyPayment)) state ti).minPaid = 0 ∧
    (overBudgetEntry month (planFn month)
        (max 0 (round2 (planFn month).monthlyPayment)) state ti).directedPaid = 0 ∧
    (overBudgetEntry month (planFn month)
        (max 0 (round2 (planFn month).monthlyPayment)) state ti).extraPaid = 0 ∧
    (overBudgetEntry month (planFn month)
        (max 0 (round2 (planFn month).monthlyPayment)) state ti).targetDebtId = none := by
  refine ⟨?_, rfl, rfl, rfl, rfl, rfl, rfl⟩
  rw [simLoop, if_neg (by rw [hlive]; exact Bool.false_ne_true),
    monthBody_overBudget strategy (planFn month) month state ti hob]
  simp only [if_true, List.reverse_cons]

/-- Witness for C5: one live debt, a plan over budget from month 1. -/
theorem c5_overbudget_halts_witness :
    simLoop "snowball" exPlanOver 1 1 [exPickA] 0 []
      = ([exPickA], 0, [].reverse ++ [overBudgetEntry 1 (exPlanOver 1)
          (max 0 (round2 (exPlanOver 1).monthlyPayment)) [exPickA] 0]) ∧
    (overBudgetEntry 1 (exPlanOver 1)
        (max 0 (round2 (exPlanOver 1).monthlyPayment)) [exPickA] 0).invalid = true :=
  ⟨(c5_overbudget_halts "snowball" exPlanOver 0 1 [exPickA] 0 []
      (by norm_num [allPaidB, exPickA, simEps]) rfl).1,
   (c5_overbudget_halts "snowball" exPlanOver 0 1 [exPickA] 0 []
      (by norm_num [allPaidB, exPickA, simEps]) rfl).2.1⟩

/-- **C9.** In any non-schedule ("fixed") funding mode the plan function
reports `overBudget = false` for every month, so the simulator's invalid
over-budget halt is unreachable: every timeline entry of every fixed-mode
run has `invalid = false`, and a month whose dynamic required sum exceeds
the funding simply records `unassigned = 0` and continues. -/
theorem c9_fixed_mode_never_invalid (paymentMode : String) (hmode : paymentMode ≠ "schedule")
    (monthlyPayment : ℚ) (rows : List ScheduleRow) (dwm : List ResolverDebt)
    (strategy : String) (debts : List ActiveDebt) :
    (∀ m, (getPaymentPlanFn paymentMode monthlyPayment rows dwm m).overBudget = false) ∧
    (∀ e ∈ (simulateStrategy strategy debts
        (getPaymentPlanFn paymentMode monthlyPayment rows dwm)).timeline,
      e.invalid = false ∧
        (e.paymentThisMonth < e.requiredSum → e.unassigned = 0)) := by
  have hplan : ∀ m, (getPaymentPlanFn paymentMode monthlyPayment rows dwm m).overBudget
      = false := by
    intro m
    unfold getPaymentPlanFn
    rw [if_pos hmode]
  refine ⟨hplan, ?_⟩
  intro e he
  have := simLoop_entries_valid strategy _ hplan MAX_MONTHS 1 (initState debts) 0 [] e he
  rcases this with h | h
  · cases h
  · exact h

/-- Witness for C9 in the literal `"fixed"` mode. -/
theorem c9_fixed_mode_never_invalid_witness :
    (∀ m, (getPaymentPlanFn "fixed" 1500 [] [] m).overBudget = false) ∧
    (∀ e ∈ (simulateStrategy "snowball" [exSmallDebt]
        (getPaymentPlanFn "fixed" 1500 [] [])).timeline,
      e.invalid = false ∧
        (e.paymentThisMonth < e.requiredSum → e.unassigned = 0)) :=
  c9_fixed_mode_never_invalid "fixed" (by decide) 1500 [] [] "snowball" [exSmallDebt]

/-- **C3, amended.** `monthsToDebtFree ≤ 600` always; when the run ends
with a debt still unpaid it is exactly 600; when every debt is paid off
it equals the number of timeline entries — which can itself be 600 when
payoff lands exactly on month 600, so `monthsToDebtFree = 600` does not
by itself imply an unpaid debt. -/
theorem c3_months_cap (strategy : String) (debts : List ActiveDebt) (planFn : ℕ → Plan) :
    (simulateStrategy strategy debts planFn).monthsToDebtFree ≤ 600 ∧
    (allPaidB (simFinalState strategy debts planFn) = true →
      (simulateStrategy strategy debts planFn).monthsToDebtFree
        = (simulateStrategy strategy debts planFn).timeline.length) ∧
    (allPaidB (simFinalState strategy debts planFn) = false →
      (simulateStrategy strategy debts planFn).monthsToDebtFree = 600) := by
  have hlen : (simLoop strategy planFn MAX_MONTHS 1 (initState debts) 0 []).2.2.length
      ≤ 600 := by
    have := simLoop_length_le strategy planFn MAX_MONTHS 1 (initState debts) 0 []
    simpa [MAX_MONTHS] using this
  refine ⟨?_, ?_, ?_⟩
  · show (if allPaidB (simLoop strategy planFn MAX_MONTHS 1 (initState debts) 0 []).1
        then (simLoop strategy planFn MAX_MONTHS 1 (initState debts) 0 []).2.2.length
        else MAX_MONTHS) ≤ 600
    by_cases hp : allPaidB (simLoop strategy planFn MAX_MONTHS 1 (initState debts) 0 []).1
    · rw [if_pos hp]; exact hlen
    · rw [if_neg hp]; decide
  · intro hp
    have hp' : allPaidB (simLoop strategy planFn MAX_MONTHS 1 (initState debts) 0 []).1
        = true := hp
    show (if allPaidB (simLoop strategy planFn MAX_MONTHS 1 (initState debts) 0 []).1
        then (simLoop strategy planFn MAX_MONTHS 1 (initState debts) 0 []).2.2.length
        else MAX_MONTHS)
      = (simLoop strategy planFn MAX_MONTHS 1 (initState debts) 0 []).2.2.length
    rw [if_pos hp']
  · intro hp
    have hp' : allPaidB (simLoop strategy planFn MAX_MONTHS 1 (initState debts) 0 []).1
        = false := hp
    show (if allPaidB (simLoop strategy planFn MAX_MONTHS 1 (initState debts) 0 []).1
        then (simLoop strategy planFn MAX_MONTHS 1 (initState debts) 0 []).2.2.length
        else MAX_MONTHS) = 600
    rw [if_neg (by rw [hp']; exact Bool.false_ne_true)]
    rfl

/-- **C3, counterexample.** A single 0%-APR debt of 600 paid 1 per month
is retired exactly in month 600: the run ends with every balance at zero
yet `monthsToDebtFree = 600`, so `monthsToDebtFree = 600` does not imply
that some debt failed to reach zero by month 600. -/
theorem c3_months_cap_counterexample :
    (simulateStrategy "snowball" [exSlowDebt] exPlanOne).monthsToDebtFree = 600 ∧
    allPaidB (simFinalState "snowball" [exSlowDebt] exPlanOne) = true ∧
    (simulateStrategy "snowball" [exSlowDebt] exPlanOne).timeline.length = 600 := by
  obtain ⟨po', tl, heq, hlen⟩ := slow_simLoop 599 (le_refl _) 1 none []
  rw [show ((599:ℕ):ℚ) + 1 = (600:ℚ) by norm_num] at heq
  rw [show (599 + 1 : ℕ) = 600 from rfl] at heq
  have hinit : initState [exSlowDebt] = [exSlowState 600 none] := by
    have h600 : round2 (600:ℚ) = 600 := round2_eq_self ⟨60000, by norm_num⟩
    norm_num [initState, initSimDebt, exSlowDebt, exSlowState, h600, round2_zero]
  have hr : simLoop "snowball" exPlanOne MAX_MONTHS 1 (initState [exSlowDebt]) 0 []
      = ([exSlowState 0 po'], 0, tl) := by
    rw [hinit]
    exact heq
  have hpaid : allPaidB [exSlowState 0 po'] = true := by
    norm_num [allPaidB, exSlowState, simEps]
  refine ⟨?_, ?_, ?_⟩
  · show (if allPaidB (simLoop "snowball" exPlanOne MAX_MONTHS 1
          (initState [exSlowDebt]) 0 []).1
        then (simLoop "snowball" exPlanOne MAX_MONTHS 1
          (initState [exSlowDebt]) 0 []).2.2.length
        else MAX_MONTHS) = 600
    rw [hr]
    simp only [hpaid, if_true]
    simpa using hlen
  · show allPaidB (simLoop "snowball" exPlanOne MAX_MONTHS 1
        (initState [exSlowDebt]) 0 []).1 = true
    rw [hr]
    exact hpaid
  · show (simLoop "snowball" exPlanOne MAX_MONTHS 1
        (initState [exSlowDebt]) 0 []).2.2.length = 600
    rw [hr]
    simpa using hlen

/-- Witness for C3's amended statement: with no debts the run pays off
immediately and `monthsToDebtFree` equals the (empty) timeline length. -/
theorem c3_months_cap_witness :
    allPaidB (simFinalState "snowball" [] exPlanOne) = true ∧
    (simulateStrategy "snowball" [] exPlanOne).monthsToDebtFree
      = (simulateStrategy "snowball" [] exPlanOne).timeline.length := by
  have hfin : allPaidB (simFinalState "snowball" [] exPlanOne) = true := by
    show allPaidB (simLoop "snowball" exPlanOne MAX_MONTHS 1 (initState []) 0 []).1 = true
    rw [simLoop_allPaid _ _ _ _ _ _ _ (by rfl)]
    rfl
  exact ⟨hfin, (c3_months_cap "snowball" [] exPlanOne).2.1 hfin⟩

/-- Witness for C7: two active debts — balance 50 at APR 10 versus
balance 100 at APR 20 — snowball picks the 50-balance debt, avalanche the
20%-APR debt. -/
theorem c7_target_selection_witness :
    (∃ d ∈ [exPickA, exPickB].filter fun e => simEps < e.balance,
      d.id = JsId.num 0 ∧
        ∀ e ∈ [exPickA, exPickB].filter fun e => simEps < e.balance,
          d.balance < e.balance ∨ (d.balance = e.balance ∧ e.apr ≤ d.apr)) :=
  (c7_target_selection [exPickA, exPickB]).1 (JsId.num 0) (by
    norm_num [pickTargetId, pickBest, List.filter, simEps, snowballLt, exPickA, exPickB])

/-- **C8.** With income 2000 and bills 2700 the reality gate is at risk
with a bills shortfall of exactly 700, for every debt list, funding mode,
fixed amount and schedule. -/
theorem c8_bills_shortfall (debts : List Debt) (paymentMode : String)
    (monthlyPayment : ℚ) (rows : List ScheduleRow) :
    (reality 2000 2700 debts paymentMode
        (appPaymentPlanFn paymentMode monthlyPayment rows debts 1)).isAtRisk = true ∧
    (reality 2000 2700 debts paymentMode
        (appPaymentPlanFn paymentMode monthlyPayment rows debts 1)).shortfallBills = 700 := by
  constructor
  · simp only [reality, decide_eq_true_eq]
    exact Or.inr (Or.inl (by norm_num))
  · simp only [reality]
    norm_num

/-- **C4.** For every simulated month of every strategy run whose debts
have distinct id keys, every debt's balance is non-negative, and the sum
of all payments applied to a debt that month (its entry in the month's
`paidThisMonthByDebtId` map: required plus discretionary) does not exceed
that debt's pre-month balance plus the interest accrued on it that month
(its `interestPaid` increase). -/
theorem c4_monthly_invariants (strategy : String) (debts : List ActiveDebt)
    (planFn : ℕ → Plan) (n : ℕ)
    (hnd : ((initState debts).map keyOf).Nodup) :
    (∀ d ∈ (simStateAt strategy debts planFn n).state, 0 ≤ d.balance) ∧
    (∀ i, i < (simStateAt strategy debts planFn n).state.length →
      0 ≤ ((monthBody strategy (planFn (simStateAt strategy debts planFn n).month)
            (simStateAt strategy debts planFn n).month
            (simStateAt strategy debts planFn n).state
            (simStateAt strategy debts planFn n).totalInterest).1.getD i dummyDebt).balance ∧
      jsObjGetD (monthBody strategy (planFn (simStateAt strategy debts planFn n).month)
            (simStateAt strategy debts planFn n).month
            (simStateAt strategy debts planFn n).state
            (simStateAt strategy debts planFn n).totalInterest).2.2.2.2
          (keyOf ((simStateAt strategy debts planFn n).state.getD i dummyDebt))
        ≤ ((simStateAt strategy debts planFn n).state.getD i dummyDebt).balance
          + (((monthBody strategy (planFn (simStateAt strategy debts planFn n).month)
              (simStateAt strategy debts planFn n).month
              (simStateAt strategy debts planFn n).state
              (simStateAt strategy debts planFn n).totalInterest).1.getD i dummyDebt).interestPaid
             - ((simStateAt strategy debts planFn n).state.getD i dummyDebt).interestPaid)) := by
  obtain ⟨hInv, hkeys⟩ := simStateAt_inv strategy debts planFn hnd n
  have hmb := monthBody_state_spec strategy
    (planFn (simStateAt strategy debts planFn n).month)
    (simStateAt strategy debts planFn n).month
    (simStateAt strategy debts planFn n).state
    (simStateAt strategy debts planFn n).totalInterest
    hInv (by rw [hkeys]; exact hnd)
  refine ⟨fun d hd => (hInv d hd).1, ?_⟩
  intro i hi
  have h := hmb.2.2.2 i hi
  refine ⟨h.2.2.2.1, ?_⟩
  rw [h.2.2.2.2]
  have hb := h.2.2.2.1
  linarith

/-- C4's theorem applied to a concrete run: one line-of-credit debt of
100 under a fixed 1000 plan, entering month 2. -/
theorem c4_monthly_invariants_witness :
    ((initState [exSmallDebt]).map keyOf).Nodup ∧
    ((∀ d ∈ (simStateAt "snowball" [exSmallDebt] exPlanBig 1).state, 0 ≤ d.balance) ∧
    (∀ i, i < (simStateAt "snowball" [exSmallDebt] exPlanBig 1).state.length →
      0 ≤ ((monthBody "snowball" (exPlanBig (simStateAt "snowball" [exSmallDebt] exPlanBig 1).month)
            (simStateAt "snowball" [exSmallDebt] exPlanBig 1).month
            (simStateAt "snowball" [exSmallDebt] exPlanBig 1).state
            (simStateAt "snowball" [exSmallDebt] exPlanBig 1).totalInterest).1.getD i dummyDebt).balance ∧
      jsObjGetD (monthBody "snowball" (exPlanBig (simStateAt "snowball" [exSmallDebt] exPlanBig 1).month)
            (simStateAt "snowball" [exSmallDebt] exPlanBig 1).month
            (simStateAt "snowball" [exSmallDebt] exPlanBig 1).state
            (simStateAt "snowball" [exSmallDebt] exPlanBig 1).totalInterest).2.2.2.2
          (keyOf ((simStateAt "snowball" [exSmallDebt] exPlanBig 1).state.getD i dummyDebt))
        ≤ ((simStateAt "snowball" [exSmallDebt] exPlanBig 1).state.getD i dummyDebt).balance
          + (((monthBody "snowball" (exPlanBig (simStateAt "snowball" [exSmallDebt] exPlanBig 1).month)
              (simStateAt "snowball" [exSmallDebt] exPlanBig 1).month
              (simStateAt "snowball" [exSmallDebt] exPlanBig 1).state
              (simStateAt "snowball" [exSmallDebt] exPlanBig 1).totalInterest).1.getD i dummyDebt).interestPaid
             - ((simStateAt "snowball" [exSmallDebt] exPlanBig 1).state.getD i dummyDebt).interestPaid))) :=
  ⟨by decide, c4_monthly_invariants "snowball" [exSmallDebt] exPlanBig 1 (by decide)⟩

/-- **C10.** The month's reported target coerces each paid debt's id key
with `Number()`: when every debt id is numeric, the entry's
`targetDebtId` is the id of the debt that received the largest total
payment that month (the paid map's first maximal entry) and
`targetDebtName` is that debt's name; when every debt id is a
non-numeric string, `targetDebtId` is `NaN` and `targetDebtName` is
`null` even though payments were made. -/
theorem c10_number_coercion :
    (∀ (strategy : String) (plan : Plan) (month : ℕ) (st : List SimDebt) (ti : ℚ),
      SimInv st → ((st.map keyOf).Nodup) →
      (∀ d ∈ st, ∃ m : ℕ, d.id = JsId.num m) →
      plan.overBudget = false →
      (∃ kv ∈ (monthBody strategy plan month st ti).2.2.2.2, 0 < kv.2) →
      ∃ d ∈ st, ∃ v : ℚ, 0 < v ∧
        FirstMax (jsEntries (monthBody strategy plan month st ti).2.2.2.2) (keyOf d) v ∧
        (monthBody strategy plan month st ti).2.2.1.targetDebtId = some d.id ∧
        (monthBody strategy plan month st ti).2.2.1.targetDebtName = some d.name) ∧
    (∀ (strategy : String) (plan : Plan) (month : ℕ) (st : List SimDebt) (ti : ℚ),
      (∀ d ∈ st, ∃ s : String, d.id = JsId.str s ∧ parseDecimal? s = none) →
      plan.overBudget = false →
      (∃ kv ∈ (monthBody strategy plan month st ti).2.2.2.2, 0 < kv.2) →
      (monthBody strategy plan month st ti).2.2.1.targetDebtId = some JsId.nan ∧
      (monthBody strategy plan month st ti).2.2.1.targetDebtName = none) := by
  constructor
  · intro strategy plan month st ti hInv hnd hids hob hpos
    obtain ⟨kv0, hkv0mem, hkv0pos⟩ := hpos
    rw [(monthBody_decompose strategy plan month st ti hob).2] at hkv0mem
    obtain ⟨k, v, hselmem, hFM, hvpos, htgt⟩ :=
      computeActualTarget_pos (mem_jsEntries_of_mem hkv0mem) hkv0pos
    obtain ⟨d, hd, hdk⟩ :=
      List.mem_map.mp (monthExtra_paid_keys strategy plan month st (mem_jsEntries hselmem))
    have hdk' : keyOf d = k := hdk
    obtain ⟨m, hm⟩ := hids d hd
    have hkd : keyOf d = natToDecimal m := by
      unfold keyOf
      rw [hm]
      rfl
    have hnum : jsNumberOfString k = d.id := by
      rw [← hdk', hkd, hm]
      unfold jsNumberOfString
      rw [parseDecimal_natToDecimal]
    have htof := monthBody_target_of strategy plan month st ti hob (jsNumberOfString k) v htgt
    rw [hnum] at htof
    have hmb := monthBody_state_spec strategy plan month st ti hInv hnd
    have hstate := (monthBody_decompose strategy plan month st ti hob).1
    obtain ⟨i, hilt, hieq⟩ := List.mem_iff_getElem.mp hd
    have hstd : st.getD i dummyDebt = d := by
      rw [List.getD_eq_getElem st dummyDebt hilt]
      exact hieq
    have hiE : i < (monthExtra strategy plan month st).1.length := by
      rw [← hstate, hmb.1]
      exact hilt
    have hx3id : ((monthExtra strategy plan month st).1.getD i dummyDebt).id = d.id := by
      rw [← hstate, (hmb.2.2.2 i hilt).1, hstd]
    have hx3name : ((monthExtra strategy plan month st).1.getD i dummyDebt).name = d.name := by
      rw [← hstate, (hmb.2.2.2 i hilt).2.1, hstd]
    have hndE : ((monthExtra strategy plan month st).1.map keyOf).Nodup := by
      rw [← hstate, hmb.2.2.1]
      exact hnd
    have hname : (monthBody strategy plan month st ti).2.2.1.targetDebtName
        = some d.name := by
      cases hf : (monthExtra strategy plan month st).1.find?
          fun (x : SimDebt) => jsEq x.id d.id with
      | none =>
        exfalso
        have hnone := List.find?_eq_none.mp hf
          ((monthExtra strategy plan month st).1.getD i dummyDebt) (getD_mem hiE)
        apply hnone
        show jsEq ((monthExtra strategy plan month st).1.getD i dummyDebt).id d.id = true
        rw [hx3id, hm]
        show jsEq (JsId.num m) (JsId.num m) = true
        simp [jsEq]
      | some x =>
        have hxmem := List.mem_of_find?_eq_some hf
        have hpx := List.find?_some hf
        have hxid : x.id = d.id := (jsEq_true_iff.mp hpx).1
        obtain ⟨j, hjlt, hxj⟩ := List.mem_iff_getElem.mp hxmem
        have hklt_j : j < ((monthExtra strategy plan month st).1.map keyOf).length := by
          simpa using hjlt
        have hklt_i : i < ((monthExtra strategy plan month st).1.map keyOf).length := by
          simpa using hiE
        have hkeq : ((monthExtra strategy plan month st).1.map keyOf)[j]
            = ((monthExtra strategy plan month st).1.map keyOf)[i] := by
          rw [List.getElem_map, List.getElem_map, hxj]
          have h1 : keyOf x = jsIdToString d.id := by
            unfold keyOf
            rw [hxid]
          have h2 : keyOf ((monthExtra strategy plan month st).1[i])
              = jsIdToString d.id := by
            rw [show (monthExtra strategy plan month st).1[i]
                = (monthExtra strategy plan month st).1.getD i dummyDebt from
                (List.getD_eq_getElem _ dummyDebt hiE).symm]
            unfold keyOf
            rw [hx3id]
          rw [h1, h2]
        have hji : j = i := nodup_getElem_inj hndE hklt_j hklt_i hkeq
        subst hji
        have hx : x = (monthExtra strategy plan month st).1.getD j dummyDebt := by
          rw [List.getD_eq_getElem _ dummyDebt hiE]
          exact hxj.symm
        rw [htof.2, hf]
        show some x.name = some d.name
        rw [hx, hx3name]
    refine ⟨d, hd, v, hvpos, ?_, ?_, hname⟩
    · rw [(monthBody_decompose strategy plan month st ti hob).2, hdk']
      exact hFM
    · exact htof.1
  · intro strategy plan month st ti hids hob hpos
    obtain ⟨kv0, hkv0mem, hkv0pos⟩ := hpos
    rw [(monthBody_decompose strategy plan month st ti hob).2] at hkv0mem
    obtain ⟨k, v, hselmem, hFM, hvpos, htgt⟩ :=
      computeActualTarget_pos (mem_jsEntries_of_mem hkv0mem) hkv0pos
    obtain ⟨d, hd, hdk⟩ :=
      List.mem_map.mp (monthExtra_paid_keys strategy plan month st (mem_jsEntries hselmem))
    have hdk' : keyOf d = k := hdk
    obtain ⟨s, hs, hsp⟩ := hids d hd
    have hkd : keyOf d = s := by
      unfold keyOf
      rw [hs]
      rfl
    have hnum : jsNumberOfString k = JsId.nan := by
      rw [← hdk', hkd]
      unfold jsNumberOfString
      rw [hsp]
    have htof := monthBody_target_of strategy plan month st ti hob (jsNumberOfString k) v htgt
    rw [hnum] at htof
    refine ⟨htof.1, ?_⟩
    rw [htof.2]
    have hfnone : (monthExtra strategy plan month st).1.find?
        (fun (x : SimDebt) => jsEq x.id JsId.nan) = none :=
      List.find?_eq_none.mpr fun x _ => by
        show ¬ jsEq x.id JsId.nan = true
        rw [jsEq_nan_right]
        exact Bool.false_ne_true
    rw [hfnone]
    rfl

/-- C10's two parts applied to concrete one-debt months: a numeric id
(`0`) yields that debt as target with its name; a non-numeric id (`"x"`)
yields a `NaN` target id and no name, though 50.42 was paid. -/
theorem c10_number_coercion_witness :
    (∃ kv ∈ (monthBody "snowball" (exPlanBig 1) 1 [exPickA] 0).2.2.2.2, 0 < kv.2) ∧
    (∃ d ∈ [exPickA], ∃ v : ℚ, 0 < v ∧
      FirstMax (jsEntries (monthBody "snowball" (exPlanBig 1) 1 [exPickA] 0).2.2.2.2)
        (keyOf d) v ∧
      (monthBody "snowball" (exPlanBig 1) 1 [exPickA] 0).2.2.1.targetDebtId
        = some d.id ∧
      (monthBody "snowball" (exPlanBig 1) 1 [exPickA] 0).2.2.1.targetDebtName
        = some d.name) ∧
    (∃ kv ∈ (monthBody "snowball" (exPlanBig 1) 1 [exStrDebt] 0).2.2.2.2, 0 < kv.2) ∧
    (monthBody "snowball" (exPlanBig 1) 1 [exStrDebt] 0).2.2.1.targetDebtId
      = some JsId.nan ∧
    (monthBody "snowball" (exPlanBig 1) 1 [exStrDebt] 0).2.2.1.targetDebtName
      = none := by
  have hposA : ∃ kv ∈ (monthBody "snowball" (exPlanBig 1) 1 [exPickA] 0).2.2.2.2,
      0 < kv.2 := by
    refine ⟨("0", 2521/50), ?_, by norm_num⟩
    norm_num [monthBody, accrue, dynamicMins, computeMonthlyMinimumDynamic,
      estimateMinimumPayment, requiredPhase, requiredStep, intendedPayment, extraLoop,
      payFirstMatch, pickTargetId, pickBest, allPaidB, jsEq, computeActualTarget,
      jsEntries, isIndexKey, indexKeyVal, parseDecimal?, natToDecimal, digitChar,
      jsNumberOfString, keyOfOptId, totalRemainingOf, overBudgetEntry, jsObjGetD,
      jsObjGet, jsObjSet, jsIdToString, round2, simEps, exPickA, exPlanBig, keyOf,
      List.insertionSort, List.orderedInsert, List.find?, List.filter, List.foldl]
  have hposB : ∃ kv ∈ (monthBody "snowball" (exPlanBig 1) 1 [exStrDebt] 0).2.2.2.2,
      0 < kv.2 := by
    refine ⟨("x", 2521/50), ?_, by norm_num⟩
    norm_num [monthBody, accrue, dynamicMins, computeMonthlyMinimumDynamic,
      estimateMinimumPayment, requiredPhase, requiredStep, intendedPayment, extraLoop,
      payFirstMatch, pickTargetId, pickBest, allPaidB, jsEq, computeActualTarget,
      jsEntries, isIndexKey, indexKeyVal, parseDecimal?, natToDecimal, digitChar,
      jsNumberOfString, keyOfOptId, totalRemainingOf, overBudgetEntry, jsObjGetD,
      jsObjGet, jsObjSet, jsIdToString, round2, simEps, exStrDebt, exPlanBig, keyOf,
      List.insertionSort, List.orderedInsert, List.find?, List.filter, List.foldl]
  have hInvA : SimInv [exPickA] := by
    intro d hd
    rw [List.mem_singleton] at hd
    subst hd
    exact ⟨by norm_num [exPickA], ⟨5000, by norm_num [exPickA]⟩,
      ⟨0, by norm_num [exPickA]⟩, by norm_num [exPickA]⟩
  have hidsA : ∀ d ∈ [exPickA], ∃ m : ℕ, d.id = JsId.num m := by
    intro d hd
    rw [List.mem_singleton] at hd
    subst hd
    exact ⟨0, rfl⟩
  have hidsB : ∀ d ∈ [exStrDebt], ∃ s : String,
      d.id = JsId.str s ∧ parseDecimal? s = none := by
    intro d hd
    rw [List.mem_singleton] at hd
    subst hd
    exact ⟨"x", rfl, by decide⟩
  exact ⟨hposA,
    c10_number_coercion.1 "snowball" (exPlanBig 1) 1 [exPickA] 0 hInvA (by decide)
      hidsA rfl hposA,
    hposB,
    c10_number_coercion.2 "snowball" (exPlanBig 1) 1 [exStrDebt] 0 hidsB rfl hposB⟩

end ClearPath
